import Mathlib

/-!
# agario: protocol decoder and world-state reconciliation

A shallow embedding of `connection.go`, `messages.go` and `game.go`.

Conventions of the embedding.

* A byte is a natural number below 256; a message buffer is a `List Nat`.
* `Connection.buffer` (a `bytes.Reader`) is represented by its unread
  suffix `r.s[r.i:]`: a read returns the value together with the new suffix.
* A Go `panic(err)` inside `Read` is the `Except.error` branch of the cursor
  functions; `Read` turns it into the returned error, as its deferred
  `recover` does.
* `uint16`, `uint32` are naturals, `int16`, `int32` are integers.
* `float32` and `float64` values read from the wire are kept as their bit
  patterns (`math.Float32frombits`, `math.Float64frombits` are bijections).
* A Go `string` is the list of its UTF-8 bytes.
* `log.Printf` calls are left out: they do not change any returned value or
  any field of the world state.
-/

namespace Agario

/-! ## messages.go -/

/-- Go `Point`: two `int16` coordinates. -/
structure Point where
  X : Int
  Y : Int
deriving DecidableEq, Repr

/-- Go `CellDestroyed`. -/
structure CellDestroyed where
  Attacker : Nat
  Victim : Nat
deriving DecidableEq, Repr

/-- Go `CellUpdate` (the embedded `Point` is the field `Point`). -/
structure CellUpdate where
  ID : Nat
  Point : Point
  Size : Int
  R : Nat
  G : Nat
  B : Nat
  Virus : Bool
  Agitated : Bool
  Name : List Nat
deriving DecidableEq, Repr

/-- Go `LeaderboardItem`. -/
structure LeaderboardItem where
  ID : Nat
  Name : List Nat
deriving DecidableEq, Repr

/-- Go `MessageCanvasSize`; every field is the bit pattern of a `float64`. -/
structure MessageCanvasSize where
  Left : Nat
  Bottom : Nat
  Right : Nat
  Top : Nat
deriving DecidableEq, Repr

/-- Go `Message` (an empty interface): the dynamic values `Read` can return.
`nil` is the value after a recovered panic, `messageType` is the raw tag byte
returned next to `ErrUnknownMessage`. -/
inductive Message where
  | nil
  | messageType (tag : Nat)
  | MessageUpdate (Destroyed : List CellDestroyed) (Updated : List CellUpdate)
      (Clean : List Nat)
  | MessageMyID (MyCell : Nat)
  | MessageLeaderboard (Items : List LeaderboardItem)
  | MessageTeamLeaderboard (Red Green Blue : Nat)
  | MessageCanvasSize (m : MessageCanvasSize)
  | MessageHello
deriving DecidableEq, Repr

/-! ## connection.go: the byte cursor -/

/-- Errors `Read` can return for a received message: `io.EOF` (raised by the
reader and recovered from the panic) and `ErrUnknownMessage`.  `outOfFuel` is
not a Go value: it marks an exhausted iteration budget of the update loop and
is shown never to be returned (`Read_ne_outOfFuel`). -/
inductive Error where
  | EOF
  | ErrUnknownMessage
  | outOfFuel
deriving DecidableEq, Repr

/-- Go `(*Connection).mustReadByte`, over `bytes.Reader.ReadByte`. -/
def mustReadByte (buffer : List Nat) : Except Error (Nat × List Nat) :=
  match buffer with
  | [] => .error .EOF
  | b :: rest => .ok (b, rest)

/-- Go `(*Connection).mustReadBytes`, over `bytes.Reader.Read`: at the end of
the buffer `Read` returns `io.EOF`; otherwise it copies
`min n (remaining)` bytes into the zeroed slice `b` and returns a nil error,
and the count it returns is discarded. -/
def mustReadBytes (n : Nat) (buffer : List Nat) : Except Error (List Nat × List Nat) :=
  match buffer with
  | [] => .error .EOF
  | _ :: _ => .ok (buffer.take n ++ List.replicate (n - buffer.length) 0, buffer.drop n)

/-- Go `binary.LittleEndian.Uint16` on a slice of bytes. -/
def leUint16 (b : List Nat) : Nat :=
  b.getD 0 0 + 2 ^ 8 * b.getD 1 0

/-- Go `binary.LittleEndian.Uint32` on a slice of bytes. -/
def leUint32 (b : List Nat) : Nat :=
  b.getD 0 0 + 2 ^ 8 * b.getD 1 0 + 2 ^ 16 * b.getD 2 0 + 2 ^ 24 * b.getD 3 0

/-- Go `binary.LittleEndian.Uint64` on a slice of bytes. -/
def leUint64 (b : List Nat) : Nat :=
  b.getD 0 0 + 2 ^ 8 * b.getD 1 0 + 2 ^ 16 * b.getD 2 0 + 2 ^ 24 * b.getD 3 0
    + 2 ^ 32 * b.getD 4 0 + 2 ^ 40 * b.getD 5 0 + 2 ^ 48 * b.getD 6 0
    + 2 ^ 56 * b.getD 7 0

/-- Go conversion `int16(u)` of a `uint16`. -/
def toInt16 (u : Nat) : Int :=
  if u % 2 ^ 16 < 2 ^ 15 then (u % 2 ^ 16 : Nat) else (u % 2 ^ 16 : Nat) - 2 ^ 16

/-- Go `(*Connection).mustReadUint16`. -/
def mustReadUint16 (buffer : List Nat) : Except Error (Nat × List Nat) :=
  match mustReadBytes 2 buffer with
  | .error e => .error e
  | .ok (b, rest) => .ok (leUint16 b, rest)

/-- Go `(*Connection).mustReadInt16`. -/
def mustReadInt16 (buffer : List Nat) : Except Error (Int × List Nat) :=
  match mustReadBytes 2 buffer with
  | .error e => .error e
  | .ok (b, rest) => .ok (toInt16 (leUint16 b), rest)

/-- Go `(*Connection).mustReadUint32`. -/
def mustReadUint32 (buffer : List Nat) : Except Error (Nat × List Nat) :=
  match mustReadBytes 4 buffer with
  | .error e => .error e
  | .ok (b, rest) => .ok (leUint32 b, rest)

/-- Go `(*Connection).mustReadFloat32`; the result is the bit pattern. -/
def mustReadFloat32 (buffer : List Nat) : Except Error (Nat × List Nat) :=
  match mustReadBytes 4 buffer with
  | .error e => .error e
  | .ok (b, rest) => .ok (leUint32 b, rest)

/-- Go `(*Connection).mustReadFloat64`; the result is the bit pattern. -/
def mustReadFloat64 (buffer : List Nat) : Except Error (Nat × List Nat) :=
  match mustReadBytes 8 buffer with
  | .error e => .error e
  | .ok (b, rest) => .ok (leUint64 b, rest)

/-! ### UTF-16 decoding and the conversion to a Go string -/

/-- Go `utf16.Decode`: surrogate pairs are combined, a lone surrogate gives
U+FFFD. -/
def utf16Decode : List Nat → List Nat
  | [] => []
  | [r] => if r < 0xd800 ∨ 0xe000 ≤ r then [r] else [0xFFFD]
  | r :: r2 :: rest =>
    if r < 0xd800 ∨ 0xe000 ≤ r then
      r :: utf16Decode (r2 :: rest)
    else if 0xd800 ≤ r ∧ r < 0xdc00 ∧ 0xdc00 ≤ r2 ∧ r2 < 0xe000 then
      ((((r - 0xd800) <<< 10) ||| (r2 - 0xdc00)) + 0x10000) :: utf16Decode rest
    else
      0xFFFD :: utf16Decode (r2 :: rest)

/-- Go runtime `encoderune`: the UTF-8 bytes of one rune; a surrogate or a
value above U+10FFFF is written as U+FFFD. -/
def encoderune (r : Nat) : List Nat :=
  if r ≤ 0x7F then [r % 256]
  else if r ≤ 0x7FF then
    [0xC0 ||| ((r >>> 6) % 256), 0x80 ||| ((r % 256) &&& 0x3F)]
  else if r > 0x10FFFF ∨ (0xD800 ≤ r ∧ r ≤ 0xDFFF) then
    [0xEF, 0xBF, 0xBD]
  else if r ≤ 0xFFFF then
    [0xE0 ||| ((r >>> 12) % 256), 0x80 ||| (((r >>> 6) % 256) &&& 0x3F),
      0x80 ||| ((r % 256) &&& 0x3F)]
  else
    [0xF0 ||| ((r >>> 18) % 256), 0x80 ||| (((r >>> 12) % 256) &&& 0x3F),
      0x80 ||| (((r >>> 6) % 256) &&& 0x3F), 0x80 ||| ((r % 256) &&& 0x3F)]

/-- Go conversion `string(runes)` of a `[]rune`. -/
def stringOfRunes (runes : List Nat) : List Nat :=
  (runes.map encoderune).flatten

/-- The loop of Go `(*Connection).mustReadString`: code units are read two
bytes at a time until a zero unit.  The argument `chars` is the slice built so
far.  With a single byte left, `mustReadBytes 2` returns that byte followed by
a zero byte. -/
def readChars (chars : List Nat) : List Nat → Except Error (List Nat × List Nat)
  | [] => .error .EOF
  | [b0] => if b0 = 0 then .ok (chars, []) else .error .EOF
  | b0 :: b1 :: rest =>
    if leUint16 [b0, b1] = 0 then .ok (chars, rest)
    else readChars (chars ++ [leUint16 [b0, b1]]) rest

/-- Go `(*Connection).mustReadString`. -/
def mustReadString (buffer : List Nat) : Except Error (List Nat × List Nat) :=
  match readChars [] buffer with
  | .error e => .error e
  | .ok (chars, rest) => .ok (stringOfRunes (utf16Decode chars), rest)

/-! ## connection.go: `Connection.Read` -/

/-- The loop `for i := uint16(0); i < numCellsDestroyed; i++` of `Read`: each
round reads the attacker id, then the victim id. -/
def readDestroyed : Nat → List Nat → Except Error (List CellDestroyed × List Nat)
  | 0, buffer => .ok ([], buffer)
  | n + 1, buffer => do
    let (attacker, b1) ← mustReadUint32 buffer
    let (victim, b2) ← mustReadUint32 b1
    let (ds, b3) ← readDestroyed n b2
    pure ({ Attacker := attacker, Victim := victim } :: ds, b3)

/-- One `if pointFlags&k == k { c.mustReadBytes(n) }` of `Read`: the bytes
read are discarded. -/
def skipBytes (cond : Bool) (n : Nat) (buffer : List Nat) : Except Error (List Nat) :=
  if cond then
    match mustReadBytes n buffer with
    | .error e => .error e
    | .ok (_, rest) => .ok rest
  else .ok buffer

/-- The body of the update loop of `Read` after a non-zero `id` was read. -/
def readCellUpdate (id : Nat) (buffer : List Nat) : Except Error (CellUpdate × List Nat) := do
  let (x, b1) ← mustReadInt16 buffer
  let (y, b2) ← mustReadInt16 b1
  let (size, b3) ← mustReadInt16 b2
  let (colorR, b4) ← mustReadByte b3
  let (colorG, b5) ← mustReadByte b4
  let (colorB, b6) ← mustReadByte b5
  let (pointFlags, b7) ← mustReadByte b6
  let pointIsVirus : Bool := pointFlags &&& 1 == 1
  let pointIsAgitated : Bool := pointFlags &&& 16 == 16
  let b8 ← skipBytes (pointFlags &&& 2 == 2) 4 b7
  let b9 ← skipBytes (pointFlags &&& 4 == 4) 8 b8
  let b10 ← skipBytes (pointFlags &&& 8 == 8) 16 b9
  let (pointName, b11) ← mustReadString b10
  pure ({ ID := id, Point := { X := x, Y := y }, Size := size,
          R := colorR, G := colorG, B := colorB,
          Virus := pointIsVirus, Agitated := pointIsAgitated,
          Name := pointName }, b11)

/-- The sentinel-terminated loop `for { id := c.mustReadUint32(); if id == 0
{ break } ... }` of `Read`.  Every round consumes at least one byte or
panics, so `fuel` larger than the buffer length is never used up. -/
def readUpdated : Nat → List Nat → Except Error (List CellUpdate × List Nat)
  | 0, _ => .error .outOfFuel
  | fuel + 1, buffer => do
    let (id, b1) ← mustReadUint32 buffer
    if id = 0 then pure ([], b1)
    else
      let (u, b2) ← readCellUpdate id b1
      let (us, b3) ← readUpdated fuel b2
      pure (u :: us, b3)

/-- The loop `for i := uint32(0); i < numClean; i++` of `Read`. -/
def readClean : Nat → List Nat → Except Error (List Nat × List Nat)
  | 0, buffer => .ok ([], buffer)
  | n + 1, buffer => do
    let (id, b1) ← mustReadUint32 buffer
    let (ids, b2) ← readClean n b1
    pure (id :: ids, b2)

/-- The loop `for seek := uint32(0); seek < numItems; seek++` of `Read`. -/
def readItems : Nat → List Nat → Except Error (List LeaderboardItem × List Nat)
  | 0, buffer => .ok ([], buffer)
  | n + 1, buffer => do
    let (id, b1) ← mustReadUint32 buffer
    let (name, b2) ← mustReadString b1
    let (items, b3) ← readItems n b2
    pure ({ ID := id, Name := name } :: items, b3)

/-- The bytes of the literal `"elloHelloHello"`. -/
def elloHelloHello : List Nat :=
  [101, 108, 108, 111, 72, 101, 108, 108, 111, 72, 101, 108, 108, 111]

/-- The `switch messageType` of `Read`.  The result is the returned pair
`(msg, err)` and the unread suffix of the buffer when `Read` returns. -/
def readSwitch (messageType : Nat) (buffer : List Nat) :
    Except Error ((Message × Option Error) × List Nat) :=
  if messageType = 0x10 then do
    let (numCellsDestroyed, b1) ← mustReadUint16 buffer
    let (destroyed, b2) ← readDestroyed numCellsDestroyed b1
    let (updated, b3) ← readUpdated (b2.length + 1) b2
    let (numClean, b4) ← mustReadUint32 b3
    let (clean, b5) ← readClean numClean b4
    pure ((Message.MessageUpdate destroyed updated clean, none), b5)
  else if messageType = 0x20 then do
    let (myCell, b1) ← mustReadUint32 buffer
    pure ((Message.MessageMyID myCell, none), b1)
  else if messageType = 0x31 then do
    let (numItems, b1) ← mustReadUint32 buffer
    let (items, b2) ← readItems numItems b1
    pure ((Message.MessageLeaderboard items, none), b2)
  else if messageType = 0x32 then do
    let (n, b1) ← mustReadUint32 buffer
    if n ≠ 3 then pure ((Message.messageType messageType, some Error.ErrUnknownMessage), b1)
    else
      let (red, b2) ← mustReadFloat32 b1
      let (green, b3) ← mustReadFloat32 b2
      let (blue, b4) ← mustReadFloat32 b3
      pure ((Message.MessageTeamLeaderboard red green blue, none), b4)
  else if messageType = 0x40 then do
    let (left, b1) ← mustReadFloat64 buffer
    let (top, b2) ← mustReadFloat64 b1
    let (right, b3) ← mustReadFloat64 b2
    let (bottom, b4) ← mustReadFloat64 b3
    pure ((Message.MessageCanvasSize
      { Left := left, Top := top, Right := right, Bottom := bottom }, none), b4)
  else if messageType = 0x48 then do
    let (b, b1) ← mustReadBytes 14 buffer
    if b = elloHelloHello then pure ((Message.MessageHello, none), b1)
    else pure ((Message.messageType messageType, some Error.ErrUnknownMessage), b1)
  else
    pure ((Message.messageType messageType, some Error.ErrUnknownMessage), buffer)

/-- The body of `Read` on the received bytes `msgBytes`, from
`messageType := c.mustReadByte()` on.  `c.buffer.Seek(4, 1)` moves the
position four bytes on, also past the end. -/
def readFrom (msgBytes : List Nat) : Except Error ((Message × Option Error) × List Nat) := do
  let (messageType, b1) ← mustReadByte msgBytes
  if messageType = 0xF0 then
    let (messageType2, b2) ← mustReadByte (b1.drop 4)
    readSwitch messageType2 b2
  else
    readSwitch messageType b1

/-- Go `(*Connection).Read` on a received message: the pair `(msg, err)`.  A
panic is recovered into `(nil, err)`. -/
def Read (msgBytes : List Nat) : Message × Option Error :=
  match readFrom msgBytes with
  | .error e => (Message.nil, some e)
  | .ok (r, _) => r

/-- The value of `c.buffer.Len()` when `Read` returns normally: the number of
bytes of the message that were not consumed (`none` after a panic). -/
def unreadLen (msgBytes : List Nat) : Option Nat :=
  match readFrom msgBytes with
  | .error _ => none
  | .ok (_, rest) => some rest.length

/-! ## game.go: the world state -/

/-- Go `mgl32.Vec2` holding a position.  Every position stored by `RunOnce` is
`float32(int16)` in both components, a conversion that is exact, so a position
is kept as the pair of integers. -/
structure Vec2 where
  X : Int
  Y : Int
deriving DecidableEq, Repr

/-- Go `mgl32.Vec2` holding a heading.  `RunOnce` stores either the zero
vector or `positionDifference.Normalize()`; the float32 arithmetic of
`Normalize` is not evaluated, the value is recorded as the difference vector
it is applied to. -/
inductive Heading where
  | zero
  | Normalize (positionDifference : Vec2)
deriving DecidableEq, Repr

/-- Go `color.RGBA`. -/
structure RGBA where
  R : Nat
  G : Nat
  B : Nat
  A : Nat
deriving DecidableEq, Repr

/-- Go `Cell`. -/
structure Cell where
  ID : Nat
  Name : List Nat
  Position : Vec2
  Heading : Heading
  Size : Int
  Color : RGBA
  IsVirus : Bool
deriving DecidableEq, Repr

/-- Go `Game` without the mutex and the connection.  `targetX`, `targetY` are
bit patterns of `float64` values (0 is the bit pattern of `+0.0`), `Board` is
a nil-able pointer, `MyIDs` is a set and `Cells` a map from id to cell. -/
structure Game where
  Leaderboard : List LeaderboardItem
  targetX : Nat
  targetY : Nat
  Board : Option MessageCanvasSize
  MyIDs : Finset Nat
  Cells : Nat → Option Cell

/-- Go `NewGame`: empty maps, zero values elsewhere. -/
def NewGame : Game :=
  { Leaderboard := [], targetX := 0, targetY := 0, Board := none,
    MyIDs := ∅, Cells := fun _ => none }

/-- Go `delete(g.Cells, id)`. -/
def deleteCell (cells : Nat → Option Cell) (id : Nat) : Nat → Option Cell :=
  fun k => if k = id then none else cells k

/-- Go `g.Cells[id] = cell`. -/
def setCell (cells : Nat → Option Cell) (id : Nat) (cell : Cell) : Nat → Option Cell :=
  fun k => if k = id then some cell else cells k

/-- Go `oldPosition.ApproxEqual(newPosition)` on positions with integer
components between -32768 and 32767: two different such floats differ by at
least 1 and the sum of their absolute values is at most 65536, so the relative
test `diff/(|a|+|b|) < 1e-10` of `mgl32.FloatEqual` fails and the comparison
is equality. -/
def Vec2.ApproxEqual (a b : Vec2) : Bool :=
  a.X == b.X && a.Y == b.Y

/-- Go `cell.Position.Sub(oldPosition)`, exact on these integers (the
difference is below 2^24 in absolute value). -/
def Vec2.Sub (a b : Vec2) : Vec2 :=
  { X := a.X - b.X, Y := a.Y - b.Y }

/-- One round of `for _, dest := range msg.Destroyed` in `RunOnce`. -/
def destroyCell (g : Game) (dest : CellDestroyed) : Game :=
  { g with Cells := deleteCell g.Cells dest.Victim }

/-- One round of `for _, update := range msg.Updated` in `RunOnce`. -/
def updateCell (g : Game) (update : CellUpdate) : Game :=
  match g.Cells update.ID with
  | none =>
    let cell : Cell :=
      { ID := update.ID, Name := update.Name,
        Position := { X := update.Point.X, Y := update.Point.Y },
        Heading := Heading.zero,
        Size := update.Size,
        Color := { R := update.R, G := update.G, B := update.B, A := 255 },
        IsVirus := update.Virus }
    { g with Cells := setCell g.Cells update.ID cell }
  | some cell =>
    let newPosition : Vec2 := { X := update.Point.X, Y := update.Point.Y }
    let oldPosition := cell.Position
    let heading :=
      if !oldPosition.ApproxEqual newPosition then
        Heading.Normalize (newPosition.Sub oldPosition)
      else Heading.zero
    let cell1 : Cell :=
      { cell with
        IsVirus := update.Virus,
        Position := newPosition,
        Heading := heading,
        Size := update.Size,
        Name := if update.Name ≠ [] then update.Name else cell.Name }
    { g with Cells := setCell g.Cells update.ID cell1 }

/-- One round of `for _, id := range msg.Clean` in `RunOnce`. -/
def cleanCell (g : Game) (id : Nat) : Game :=
  let g1 : Game := { g with Cells := deleteCell g.Cells id }
  if id ∈ g1.MyIDs then
    let g2 : Game := { g1 with MyIDs := g1.MyIDs.erase id }
    if g2.MyIDs.card = 0 then { g2 with targetX := 0, targetY := 0 }
    else g2
  else g1

/-- The `switch msg := msgInterface.(type)` of `RunOnce`: the world state
after the decoded message is applied. -/
def applyMessage (g : Game) : Message → Game
  | Message.MessageUpdate destroyed updated clean =>
    clean.foldl cleanCell (updated.foldl updateCell (destroyed.foldl destroyCell g))
  | Message.MessageCanvasSize m => { g with Board := some m }
  | Message.MessageLeaderboard items => { g with Leaderboard := items }
  | Message.MessageMyID myCell => { g with MyIDs := insert myCell g.MyIDs }
  | _ => g

/-- How a call of `RunOnce` ends on a received message: it returns `true`, or
it panics with the error of `Read`. -/
inductive Outcome where
  | returned (processed : Bool)
  | panicked (err : Error)
deriving DecidableEq, Repr

/-- Go `(*Game).RunOnce` on a received message: the world state afterwards
and how the call ended.  Any non-nil error of `Read` panics before the state
is touched. -/
def RunOnce (g : Game) (msgBytes : List Nat) : Game × Outcome :=
  match Read msgBytes with
  | (_, some err) => (g, Outcome.panicked err)
  | (msg, none) => (applyMessage g msg, Outcome.returned true)

/-- A cursor function ends well: it panics with `io.EOF`, or it returns a
value satisfying `P`. -/
def Returns {α : Type} (P : α → Prop) : Except Error α → Prop
  | .error e => e = Error.EOF
  | .ok a => P a

/-- The world states of the program: `NewGame`, and every state obtained from
a world state by applying a decoded message. -/
inductive Reachable : Game → Prop where
  | init : Reachable NewGame
  | step (g : Game) (msg : Message) : Reachable g → Reachable (applyMessage g msg)

/-- Every entry of the cell map is stored under its own identifier and has an
opaque colour. -/
def CellsOK (g : Game) : Prop :=
  ∀ k c, g.Cells k = some c → c.ID = k ∧ c.Color.A = 255

/-- A world state that owns cell 4 alone, sees no cell, and has the last
commanded target (5.0, 7.0). -/
def ownsFour : Game :=
  { Leaderboard := [], targetX := 0x4014000000000000, targetY := 0x401C000000000000,
    Board := none, MyIDs := {4}, Cells := fun _ => none }

/-- An update record for cell 1: position (10, 10), size 50, colour
(1, 2, 3), name "A". -/
def firstSighting : CellUpdate :=
  { ID := 1, Point := { X := 10, Y := 10 }, Size := 50, R := 1, G := 2, B := 3,
    Virus := false, Agitated := false, Name := [65] }

/-- A later update record for cell 1: position (13, 14), size 60, colour
(4, 5, 6), virus flag set, empty name. -/
def secondSighting : CellUpdate :=
  { ID := 1, Point := { X := 13, Y := 14 }, Size := 60, R := 4, G := 5, B := 6,
    Virus := true, Agitated := false, Name := [] }

/-- The world state after the initial state received a batch with the single
update record `firstSighting`. -/
def seenOne : Game :=
  applyMessage NewGame (Message.MessageUpdate [] [firstSighting] [])

/-! ## The wire format of an update message, as the specification words it -/

/-- Little-endian bytes of a 16-bit unsigned value. -/
def u16le (n : Nat) : List Nat :=
  [n % 256, n / 256 % 256]

/-- Little-endian bytes of a 32-bit unsigned value. -/
def u32le (n : Nat) : List Nat :=
  [n % 256, n / 256 % 256, n / 65536 % 256, n / 16777216 % 256]

/-- Little-endian two's-complement bytes of a 16-bit signed value. -/
def i16le (x : Int) : List Nat :=
  u16le (x % 65536).toNat

/-- A Unicode scalar value: a code point up to U+10FFFF that is not a
surrogate. -/
def ScalarValue (r : Nat) : Prop :=
  r ≤ 0x10FFFF ∧ ¬ (0xD800 ≤ r ∧ r ≤ 0xDFFF)

instance ScalarValue.decidable (r : Nat) : Decidable (ScalarValue r) := by
  unfold ScalarValue
  infer_instance

/-- The UTF-16 form of a scalar value, as the Unicode standard defines it: the
value itself below U+10000, and otherwise the high surrogate
`0xD800 + (r - 0x10000) / 0x400` followed by the low surrogate
`0xDC00 + (r - 0x10000) mod 0x400`. -/
def utf16Of (r : Nat) : List Nat :=
  if r < 0x10000 then [r]
  else [0xD800 + (r - 0x10000) / 0x400, 0xDC00 + (r - 0x10000) % 0x400]

/-- The UTF-8 form of a scalar value, as the Unicode standard defines it: one
byte below U+0080, two bytes `110xxxxx 10xxxxxx` below U+0800, three bytes
`1110xxxx 10xxxxxx 10xxxxxx` below U+10000, four bytes
`11110xxx 10xxxxxx 10xxxxxx 10xxxxxx` from there on. -/
def utf8Of (r : Nat) : List Nat :=
  if r < 0x80 then [r]
  else if r < 0x800 then [0xC0 + r / 0x40, 0x80 + r % 0x40]
  else if r < 0x10000 then [0xE0 + r / 0x1000, 0x80 + r / 0x40 % 0x40, 0x80 + r % 0x40]
  else [0xF0 + r / 0x40000, 0x80 + r / 0x1000 % 0x40, 0x80 + r / 0x40 % 0x40,
    0x80 + r % 0x40]

/-- One cell record of an update message as it is laid out on the wire: the
fixed fields, the flag byte `f`, the extension block `ext` and the name.  The
name is given by its code points; on the wire it is the sequence of their
UTF-16 code units (`WireCell.units`).  The well-formed sequences of UTF-16
code units are exactly the UTF-16 forms of sequences of scalar values. -/
structure WireCell where
  id : Nat
  x : Int
  y : Int
  size : Int
  r : Nat
  g : Nat
  b : Nat
  f : Nat
  ext : List Nat
  name : List Nat
deriving DecidableEq, Repr

/-- Length of the extension block a flag byte announces: 4 bytes for bit 1,
8 bytes for bit 2, 16 bytes for bit 3. -/
def extLen (f : Nat) : Nat :=
  4 * (if f.testBit 1 then 1 else 0) + 8 * (if f.testBit 2 then 1 else 0)
    + 16 * (if f.testBit 3 then 1 else 0)

/-- The UTF-16 code units of the name of a record. -/
def WireCell.units (c : WireCell) : List Nat :=
  (c.name.map utf16Of).flatten

/-- A cell record the format allows: non-zero u32 id, i16 coordinates and
size, an extension block of the announced length, and a name of scalar values
other than U+0000 (so that its code units are well-formed UTF-16 and none is
zero). -/
def WireCell.valid (c : WireCell) : Prop :=
  c.id ≠ 0 ∧ c.id < 2 ^ 32
  ∧ (-32768 ≤ c.x ∧ c.x < 32768) ∧ (-32768 ≤ c.y ∧ c.y < 32768)
  ∧ (-32768 ≤ c.size ∧ c.size < 32768)
  ∧ c.ext.length = extLen c.f
  ∧ ∀ r ∈ c.name, r ≠ 0 ∧ ScalarValue r

/-- Bytes of a cell record: id, x, y, size, r, g, b, f, extension block, name
units, zero unit. -/
def WireCell.bytes (c : WireCell) : List Nat :=
  u32le c.id ++ (i16le c.x ++ (i16le c.y ++ (i16le c.size ++
    (c.r :: c.g :: c.b :: c.f :: (c.ext ++ ((c.units.map u16le).flatten ++ u16le 0))))))

/-- The cell update a record stands for: the name is the string of the code
points of the record, a Go string being the UTF-8 bytes of its code points. -/
def WireCell.update (c : WireCell) : CellUpdate :=
  { ID := c.id, Point := { X := c.x, Y := c.y }, Size := c.size,
    R := c.r, G := c.g, B := c.b,
    Virus := c.f.testBit 0, Agitated := c.f.testBit 4,
    Name := (c.name.map utf8Of).flatten }

/-- Bytes of one destroyed pair: attacker id, victim id. -/
def CellDestroyed.bytes (d : CellDestroyed) : List Nat :=
  u32le d.Attacker ++ u32le d.Victim

/-- The update message `0x10 || u16le(count) || pairs || records || u32le(0)
|| u32le(count) || clean ids`. -/
def updateMessage (destroyed : List CellDestroyed) (cells : List WireCell)
    (clean : List Nat) : List Nat :=
  0x10 :: (u16le destroyed.length ++ ((destroyed.map CellDestroyed.bytes).flatten ++
    ((cells.map WireCell.bytes).flatten ++ (u32le 0 ++ (u32le clean.length ++
      (clean.map u32le).flatten)))))

/-! ## game.go and connection.go: the target command -/

/-- The bit pattern `b` of a `float32` is a NaN: exponent field 255 and a
non-zero mantissa. -/
def isNaN32 (b : Nat) : Bool :=
  b / 2 ^ 23 % 2 ^ 8 == 255 && b % 2 ^ 23 != 0

/-- The bit pattern `b` of a `float64` is a NaN: exponent field 2047 and a
non-zero mantissa. -/
def isNaN64 (b : Nat) : Bool :=
  b / 2 ^ 52 % 2 ^ 11 == 2047 && b % 2 ^ 52 != 0

/-- Index of the highest set bit of `m` among the bits `0..k` (0 when there
is none): the exponent of a subnormal mantissa. -/
def highBit (m : Nat) : Nat → Nat
  | 0 => 0
  | k + 1 => if 2 ^ (k + 1) ≤ m then k + 1 else highBit m k

/-- Go conversion `float64(x)` of a `float32`, on bit patterns.  The
conversion is exact: the sign is kept, a normal number has its exponent
re-biased and its mantissa shifted, a subnormal number is normalised, and an
infinity or NaN keeps the all-ones exponent (a NaN is made quiet, as the
conversion instructions do). -/
def float64OfFloat32 (b : Nat) : Nat :=
  let s := b / 2 ^ 31 % 2
  let e := b / 2 ^ 23 % 2 ^ 8
  let m := b % 2 ^ 23
  if e = 255 then
    s * 2 ^ 63 + 2047 * 2 ^ 52 + (if m = 0 then 0 else (m ||| 2 ^ 22) * 2 ^ 29)
  else if e = 0 then
    if m = 0 then s * 2 ^ 63
    else s * 2 ^ 63 + (highBit m 22 + 874) * 2 ^ 52
      + (m - 2 ^ highBit m 22) * 2 ^ (52 - highBit m 22)
  else
    s * 2 ^ 63 + (e + 896) * 2 ^ 52 + m * 2 ^ 29

/-- Go `a == b` on `float64` values given by their bit patterns: a NaN equals
nothing, the two zeros are equal, any other values are equal when their bits
are. -/
def float64Eq (a b : Nat) : Bool :=
  if isNaN64 a || isNaN64 b then false
  else if a % 2 ^ 63 == 0 && b % 2 ^ 63 == 0 then true
  else a == b

/-- Go `binary.LittleEndian.PutUint64`: the eight bytes of a 64-bit value. -/
def putUint64 (v : Nat) : List Nat :=
  [v % 256, v / 2 ^ 8 % 256, v / 2 ^ 16 % 256, v / 2 ^ 24 % 256, v / 2 ^ 32 % 256,
    v / 2 ^ 40 % 256, v / 2 ^ 48 % 256, v / 2 ^ 56 % 256]

/-- Go `(*Connection).SendTarget`: the message handed to the websocket,
`binary.Write` of `targetData{0x10, x, y}` in little-endian order followed by
four zero bytes.  `x` and `y` are bit patterns of `float64` values. -/
def SendTarget (x y : Nat) : List Nat :=
  0x10 :: (putUint64 x ++ putUint64 y) ++ [0, 0, 0, 0]

/-- Go `(*Game).SetTargetPos` with `float32` arguments given by their bit
patterns: the world state afterwards and the list of messages sent by the
call.  The send is taken to succeed (a transport error panics). -/
def SetTargetPos (g : Game) (x_ y_ : Nat) : Game × List (List Nat) :=
  let x := float64OfFloat32 x_
  let y := float64OfFloat32 y_
  if float64Eq x g.targetX && float64Eq y g.targetY then (g, [])
  else ({ g with targetX := x, targetY := y }, [SendTarget x y])

/-- The messages sent by two calls `SetTargetPos(x, y)` in a row. -/
def sentByTwoCalls (g : Game) (x_ y_ : Nat) : List (List Nat) :=
  (SetTargetPos g x_ y_).2 ++ (SetTargetPos (SetTargetPos g x_ y_).1 x_ y_).2

/-! ## connection.go: `encodeString` and `SendNickname` -/

/-- Go runtime `decoderune`, as used by the conversion `[]rune(str)` (with
the single-byte case of the loop for bytes below 0x80): the rune at the start
of `s` and the number of bytes it takes.  An ill-formed sequence gives
U+FFFD and the width 1. -/
def decoderune (s : List Nat) : Nat × Nat :=
  match s with
  | [] => (0xFFFD, 1)
  | b0 :: t =>
    if b0 < 0x80 then (b0, 1)
    else if 0xC0 ≤ b0 ∧ b0 < 0xE0 then
      match t with
      | b1 :: _ =>
        if 0x80 ≤ b1 ∧ b1 ≤ 0xBF then
          let r := ((b0 &&& 0x1F) <<< 6) ||| (b1 &&& 0x3F)
          if 0x7F < r then (r, 2) else (0xFFFD, 1)
        else (0xFFFD, 1)
      | [] => (0xFFFD, 1)
    else if 0xE0 ≤ b0 ∧ b0 < 0xF0 then
      match t with
      | b1 :: b2 :: _ =>
        if (0x80 ≤ b1 ∧ b1 ≤ 0xBF) ∧ (0x80 ≤ b2 ∧ b2 ≤ 0xBF) then
          let r := ((b0 &&& 0x0F) <<< 12) ||| ((b1 &&& 0x3F) <<< 6) ||| (b2 &&& 0x3F)
          if 0x7FF < r ∧ ¬ (0xD800 ≤ r ∧ r ≤ 0xDFFF) then (r, 3) else (0xFFFD, 1)
        else (0xFFFD, 1)
      | _ => (0xFFFD, 1)
    else if 0xF0 ≤ b0 ∧ b0 < 0xF8 then
      match t with
      | b1 :: b2 :: b3 :: _ =>
        if (0x80 ≤ b1 ∧ b1 ≤ 0xBF) ∧ (0x80 ≤ b2 ∧ b2 ≤ 0xBF) ∧ (0x80 ≤ b3 ∧ b3 ≤ 0xBF) then
          let r := ((b0 &&& 0x07) <<< 18) ||| ((b1 &&& 0x3F) <<< 12)
            ||| ((b2 &&& 0x3F) <<< 6) ||| (b3 &&& 0x3F)
          if 0xFFFF < r ∧ r ≤ 0x10FFFF then (r, 4) else (0xFFFD, 1)
        else (0xFFFD, 1)
      | _ => (0xFFFD, 1)
    else (0xFFFD, 1)

/-- The loop of the Go conversion `[]rune(str)`: one rune per round, each
round moving on by the width of its rune.  A round consumes at least one
byte, so `fuel` at least the length of `s` is never used up
(`stringToRunesAux_fuel`). -/
def stringToRunesAux : Nat → List Nat → List Nat
  | 0, _ => []
  | fuel + 1, s =>
    match s with
    | [] => []
    | _ :: _ => (decoderune s).1 :: stringToRunesAux fuel (s.drop (decoderune s).2)

/-- Go conversion `[]rune(str)` of a string. -/
def stringToRunes (str : List Nat) : List Nat :=
  stringToRunesAux str.length str

/-- The units Go `utf16.Encode` writes for one rune: U+FFFD for a surrogate
or a value above U+10FFFF, the rune itself below U+10000, and the surrogate
pair of `utf16.EncodeRune` otherwise. -/
def utf16EncodeRune (v : Nat) : List Nat :=
  if (0xd800 ≤ v ∧ v < 0xe000) ∨ v > 0x10FFFF then [0xFFFD]
  else if v < 0x10000 then [v]
  else [0xd800 + (((v - 0x10000) >>> 10) &&& 0x3ff), 0xdc00 + ((v - 0x10000) &&& 0x3ff)]

/-- Go `utf16.Encode`. -/
def utf16Encode (s : List Nat) : List Nat :=
  (s.map utf16EncodeRune).flatten

/-- Go `binary.LittleEndian.PutUint16(dst[off:], v)`: `none` is the
index-out-of-range panic, raised unless the two bytes at `off` and `off + 1`
lie inside `dst`. -/
def PutUint16 (dst : List Nat) (off v : Nat) : Option (List Nat) :=
  if off + 2 ≤ dst.length then
    some ((dst.set off (v % 256)).set (off + 1) ((v >>> 8) % 256))
  else none

/-- The loop `for i, b := range encoded` of Go `encodeString`, from index
`i` on. -/
def encodeUnits : List Nat → Nat → List Nat → Option (List Nat)
  | dst, _, [] => some dst
  | dst, i, b :: encoded =>
    match PutUint16 dst (2 * i) b with
    | none => none
    | some dst1 => encodeUnits dst1 (i + 1) encoded

/-- Go `encodeString(dst, str)`: the contents of `dst` afterwards, or `none`
for the index-out-of-range panic. -/
def encodeString (dst : List Nat) (str : List Nat) : Option (List Nat) :=
  encodeUnits dst 0 (utf16Encode (stringToRunes str))

/-- Go `(*Connection).SendNickname`: the message handed to the websocket, or
`none` when `encodeString` panics.  `msg` is a zeroed slice of
`1 + 2*len(nickname)` bytes, `len` being the length in bytes, and
`encodeString` writes into `msg[1:]`. -/
def SendNickname (nickname : List Nat) : Option (List Nat) :=
  let msg := List.replicate (1 + 2 * nickname.length) 0
  match encodeString (msg.drop 1) nickname with
  | none => none
  | some written => some (msg.take 1 ++ written)

/-! ## The nickname round trip, as the specification words it -/

/-- A code point of the Basic Multilingual Plane that a string can hold: below
U+10000 and not a surrogate. -/
def BMPScalar (r : Nat) : Prop :=
  r < 0x10000 ∧ ¬ (0xD800 ≤ r ∧ r ≤ 0xDFFF)

instance BMPScalar.decidable (r : Nat) : Decidable (BMPScalar r) := by
  unfold BMPScalar
  infer_instance

/-- The UTF-16LE bytes of `str`: what `encodeString` leaves in a zeroed
destination of two bytes per code unit of `str`. -/
def encodeToBytes (str : List Nat) : Option (List Nat) :=
  encodeString (List.replicate (2 * (utf16Encode (stringToRunes str)).length) 0) str

/-- Encoding `str`, appending a zero code unit and reading the bytes back
with `mustReadString`: the result of the read (`none` if the encoding
panics). -/
def roundTrip (str : List Nat) : Option (Except Error (List Nat × List Nat)) :=
  match encodeToBytes str with
  | none => none
  | some bytes => some (mustReadString (bytes ++ [0, 0]))

/-- The world states a session goes through: `NewGame`, then any sequence of
applied messages and of calls of `SetTargetPos`. -/
inductive SessionState : Game → Prop where
  | init : SessionState NewGame
  | message (g : Game) (msg : Message) : SessionState g → SessionState (applyMessage g msg)
  | target (g : Game) (x_ y_ : Nat) : SessionState g → SessionState (SetTargetPos g x_ y_).1

/-- The world state after cell 1 was seen once and the target (1.0, -5.0) was
commanded. -/
def targetedOne : Game :=
  (SetTargetPos seenOne 0x3F800000 0xC0A00000).1

/-! ## Theorems: the byte cursor -/

theorem mustReadBytes_cons (n b : Nat) (rest : List Nat) :
    mustReadBytes n (b :: rest)
      = .ok ((b :: rest).take n ++ List.replicate (n - (b :: rest).length) 0,
          (b :: rest).drop n) := rfl

theorem leUint16_u16le (n : Nat) (h : n < 2 ^ 16) : leUint16 (u16le n) = n := by
  simp only [leUint16, u16le, List.getD_cons_zero, List.getD_cons_succ]
  omega

theorem leUint32_u32le (n : Nat) (h : n < 2 ^ 32) : leUint32 (u32le n) = n := by
  simp only [leUint32, u32le, List.getD_cons_zero, List.getD_cons_succ]
  omega

theorem mustReadUint16_u16le (n : Nat) (h : n < 2 ^ 16) (rest : List Nat) :
    mustReadUint16 (u16le n ++ rest) = .ok (n, rest) := by
  have := leUint16_u16le n h
  simp only [u16le] at this
  simp [mustReadUint16, u16le, mustReadBytes, this]

theorem mustReadUint32_u32le (n : Nat) (h : n < 2 ^ 32) (rest : List Nat) :
    mustReadUint32 (u32le n ++ rest) = .ok (n, rest) := by
  have := leUint32_u32le n h
  simp only [u32le] at this
  simp [mustReadUint32, u32le, mustReadBytes, this]

theorem toInt16_i16le (x : Int) (h1 : -32768 ≤ x) (h2 : x < 32768) :
    toInt16 (leUint16 (i16le x)) = x := by
  have hx : (x % 65536).toNat < 2 ^ 16 := by omega
  rw [i16le, leUint16_u16le _ hx, toInt16]
  split <;> omega

theorem mustReadInt16_i16le (x : Int) (h1 : -32768 ≤ x) (h2 : x < 32768)
    (rest : List Nat) : mustReadInt16 (i16le x ++ rest) = .ok (x, rest) := by
  have := toInt16_i16le x h1 h2
  simp only [i16le, u16le] at this
  simp [mustReadInt16, i16le, u16le, mustReadBytes, this]

theorem land_two_pow (f i : Nat) : f &&& 2 ^ i = if f.testBit i then 2 ^ i else 0 := by
  apply Nat.eq_of_testBit_eq
  intro j
  rw [Nat.testBit_and, Nat.testBit_two_pow]
  by_cases h : i = j
  · subst h
    cases hb : f.testBit i <;> simp [Nat.testBit_two_pow_self]
  · cases hb : f.testBit i <;> simp [h, Nat.testBit_two_pow]

theorem flag_test (f i : Nat) : (f &&& 2 ^ i == 2 ^ i) = f.testBit i := by
  rw [land_two_pow]
  have : 2 ^ i ≠ 0 := by positivity
  cases hb : f.testBit i <;> simp [this, Ne.symm this]

theorem flag_test_1 (f : Nat) : (f &&& 1 == 1) = f.testBit 0 := flag_test f 0

theorem flag_test_2 (f : Nat) : (f &&& 2 == 2) = f.testBit 1 := flag_test f 1

theorem flag_test_4 (f : Nat) : (f &&& 4 == 4) = f.testBit 2 := flag_test f 2

theorem flag_test_8 (f : Nat) : (f &&& 8 == 8) = f.testBit 3 := flag_test f 3

theorem flag_test_16 (f : Nat) : (f &&& 16 == 16) = f.testBit 4 := flag_test f 4

theorem skipBytes_append (cond : Bool) (n : Nat) (ext tail : List Nat)
    (hn : cond = true → n ≤ ext.length) (ht : tail ≠ []) :
    skipBytes cond n (ext ++ tail) = .ok ((if cond then ext.drop n else ext) ++ tail) := by
  cases cond
  · simp [skipBytes]
  · have hn1 := hn rfl
    have hne : ext ++ tail ≠ [] := by simp [ht]
    obtain ⟨b, rest, hb⟩ := List.exists_cons_of_ne_nil hne
    simp only [skipBytes, if_true]
    rw [hb, mustReadBytes_cons, ← hb]
    simp [List.drop_append_of_le_length hn1]

theorem readChars_unit (u : Nat) (h0 : u ≠ 0) (h : u < 2 ^ 16) (chars rest : List Nat) :
    readChars chars (u16le u ++ rest) = readChars (chars ++ [u]) rest := by
  have hle := leUint16_u16le u h
  simp only [u16le] at hle
  show readChars chars (u % 256 :: u / 256 % 256 :: rest) = _
  simp only [readChars, hle, if_neg h0]

theorem readChars_zero (chars rest : List Nat) :
    readChars chars (u16le 0 ++ rest) = .ok (chars, rest) := by
  simp [readChars, u16le, leUint16]

theorem readChars_units (units : List Nat) (h : ∀ u ∈ units, u ≠ 0 ∧ u < 2 ^ 16) :
    ∀ (chars rest : List Nat),
      readChars chars ((units.map u16le).flatten ++ (u16le 0 ++ rest))
        = .ok (chars ++ units, rest) := by
  induction units with
  | nil =>
    intro chars rest
    simp [readChars_zero]
  | cons u us ih =>
    intro chars rest
    have hu := h u (List.mem_cons_self _ _)
    rw [List.map_cons, List.flatten_cons, List.append_assoc,
      readChars_unit u hu.1 hu.2, ih (fun v hv => h v (List.mem_cons_of_mem _ hv))]
    simp

theorem mustReadString_units (units : List Nat) (h : ∀ u ∈ units, u ≠ 0 ∧ u < 2 ^ 16)
    (rest : List Nat) :
    mustReadString ((units.map u16le).flatten ++ (u16le 0 ++ rest))
      = .ok (stringOfRunes (utf16Decode units), rest) := by
  simp [mustReadString, readChars_units units h]

theorem skipBytes_false (n : Nat) (buffer : List Nat) :
    skipBytes false n buffer = .ok buffer := by
  simp [skipBytes]

theorem skipBytes_true (n : Nat) (ext tail : List Nat) (hn : n ≤ ext.length)
    (ht : tail ≠ []) : skipBytes true n (ext ++ tail) = .ok (ext.drop n ++ tail) := by
  rw [skipBytes_append true n ext tail (fun _ => hn) ht]
  simp

theorem skip_chain (c1 c2 c3 : Bool) (ext tail : List Nat)
    (hext : ext.length = 4 * (if c1 then 1 else 0) + 8 * (if c2 then 1 else 0)
      + 16 * (if c3 then 1 else 0))
    (ht : tail ≠ []) :
    ∃ e1 e2 : List Nat,
      skipBytes c1 4 (ext ++ tail) = .ok (e1 ++ tail)
      ∧ skipBytes c2 8 (e1 ++ tail) = .ok (e2 ++ tail)
      ∧ skipBytes c3 16 (e2 ++ tail) = .ok tail := by
  refine ⟨if c1 then ext.drop 4 else ext,
    if c2 then (if c1 then ext.drop 4 else ext).drop 8
    else (if c1 then ext.drop 4 else ext), ?_, ?_, ?_⟩
  · cases c1
    · simp [skipBytes_false]
    · simp only [if_true] at hext ⊢
      exact skipBytes_true 4 ext tail (by omega) ht
  · cases c2
    · simp [skipBytes_false]
    · simp only [if_true] at hext ⊢
      apply skipBytes_true _ _ _ _ ht
      cases c1 <;> simp at hext ⊢ <;> omega
  · cases c3
    · have hnil : (if c2 = true then (if c1 = true then ext.drop 4 else ext).drop 8
          else (if c1 = true then ext.drop 4 else ext)) = [] := by
        apply List.eq_nil_of_length_eq_zero
        cases c1 <;> cases c2 <;> simp at hext ⊢ <;> first | omega | simp [hext]
      rw [hnil]
      simp [skipBytes_false]
    · rw [skipBytes_true _ _ _ _ ht]
      · have hnil : (if c2 = true then (if c1 = true then ext.drop 4 else ext).drop 8
            else (if c1 = true then ext.drop 4 else ext)).drop 16 = [] := by
          apply List.eq_nil_of_length_eq_zero
          cases c1 <;> cases c2 <;> simp at hext ⊢ <;> omega
        rw [hnil]
        rfl
      · cases c1 <;> cases c2 <;> simp at hext ⊢ <;> omega

theorem skip_extension (f : Nat) (ext tail : List Nat) (hext : ext.length = extLen f)
    (ht : tail ≠ []) :
    ∃ e1 e2 : List Nat,
      skipBytes (f &&& 2 == 2) 4 (ext ++ tail) = .ok (e1 ++ tail)
      ∧ skipBytes (f &&& 4 == 4) 8 (e1 ++ tail) = .ok (e2 ++ tail)
      ∧ skipBytes (f &&& 8 == 8) 16 (e2 ++ tail) = .ok tail := by
  rw [flag_test_2, flag_test_4, flag_test_8]
  exact skip_chain _ _ _ ext tail hext ht

/-! ### Primitive reads: the full read, the read at the end, the short read -/

theorem mustReadBytes_full (n : Nat) (buffer : List Nat) (hn : 0 < n)
    (h : n ≤ buffer.length) :
    mustReadBytes n buffer = .ok (buffer.take n, buffer.drop n) := by
  cases buffer with
  | nil => simp at h; omega
  | cons b rest =>
    rw [mustReadBytes_cons, Nat.sub_eq_zero_of_le h]
    simp

theorem mustReadBytes_nil (n : Nat) : mustReadBytes n [] = .error Error.EOF := rfl

theorem mustReadBytes_short (n : Nat) (buffer : List Nat) (h0 : buffer ≠ [])
    (h : buffer.length < n) :
    mustReadBytes n buffer
      = .ok (buffer ++ List.replicate (n - buffer.length) 0, []) := by
  cases buffer with
  | nil => exact absurd rfl h0
  | cons b rest =>
    rw [mustReadBytes_cons, List.take_of_length_le (by omega), List.drop_of_length_le (by omega)]

/-- C2 (failing input): on the message `0x20 0x05`, where one byte follows the
tag, `Read` returns the identity-assignment event with cell id 5 and a nil
error: the 4-byte read of `mustReadUint32` is served from the single byte
left, padded with zero bytes, and `bytes.Reader.Read` reports no error. -/
theorem C2_short_read_returns_event :
    Read [0x20, 0x05] = (Message.MessageMyID 5, none)
      ∧ mustReadUint32 [0x05] = .ok (5, []) :=
  ⟨by decide, rfl⟩

/-- C10: for every declared count `n` other than 3 and any further bytes,
`Read` on `0x32 || u32le(n) || rest` returns the `ErrUnknownMessage` error
together with the tag 0x32 (so no team-leaderboard event), and `RunOnce` on
that message panics with this error and leaves the world state as it was. -/
theorem C10_team_leaderboard_bad_count (g : Game) (n : Nat) (rest : List Nat)
    (hn : n < 2 ^ 32) (h3 : n ≠ 3) :
    Read (0x32 :: (u32le n ++ rest))
        = (Message.messageType 0x32, some Error.ErrUnknownMessage)
      ∧ RunOnce g (0x32 :: (u32le n ++ rest))
        = (g, Outcome.panicked Error.ErrUnknownMessage) := by
  have hread : Read (0x32 :: (u32le n ++ rest))
      = (Message.messageType 0x32, some Error.ErrUnknownMessage) := by
    simp only [Read, readFrom, readSwitch, mustReadByte, bind, Except.bind, pure,
      Except.pure, mustReadUint32_u32le n hn]
    simp [h3]
  exact ⟨hread, by simp [RunOnce, hread]⟩

/-- C10 at the declared count 4 followed by twelve payload bytes, on the
initial world state. -/
theorem C10_team_leaderboard_bad_count_witness :
    Read (0x32 :: (u32le 4 ++ [1, 2, 3, 4, 5, 6, 7, 8, 9, 10, 11, 12]))
        = (Message.messageType 0x32, some Error.ErrUnknownMessage)
      ∧ RunOnce NewGame (0x32 :: (u32le 4 ++ [1, 2, 3, 4, 5, 6, 7, 8, 9, 10, 11, 12]))
        = (NewGame, Outcome.panicked Error.ErrUnknownMessage) :=
  C10_team_leaderboard_bad_count NewGame 4 _ (by decide) (by decide)

/-! ## Theorems: the world state -/

/-! ### The destruction pass -/

theorem destroyCell_cells (g : Game) (dest : CellDestroyed) (k : Nat) :
    (destroyCell g dest).Cells k = if k = dest.Victim then none else g.Cells k := rfl

theorem foldl_destroyCell_cells (destroyed : List CellDestroyed) :
    ∀ (g : Game) (k : Nat), (destroyed.foldl destroyCell g).Cells k
      = if k ∈ destroyed.map CellDestroyed.Victim then none else g.Cells k := by
  induction destroyed with
  | nil => intro g k; simp
  | cons d ds ih =>
    intro g k
    rw [List.foldl_cons, ih, destroyCell_cells]
    by_cases h1 : k = d.Victim <;> by_cases h2 : k ∈ ds.map CellDestroyed.Victim <;>
      simp [h1, h2]

theorem foldl_destroyCell_fields (destroyed : List CellDestroyed) :
    ∀ (g : Game), (destroyed.foldl destroyCell g).MyIDs = g.MyIDs
      ∧ (destroyed.foldl destroyCell g).targetX = g.targetX
      ∧ (destroyed.foldl destroyCell g).targetY = g.targetY := by
  induction destroyed with
  | nil => intro g; simp
  | cons d ds ih =>
    intro g
    rw [List.foldl_cons]
    exact ih (destroyCell g d)

/-! ### The update pass -/

theorem updateCell_fields (g : Game) (update : CellUpdate) :
    (updateCell g update).MyIDs = g.MyIDs
      ∧ (updateCell g update).targetX = g.targetX
      ∧ (updateCell g update).targetY = g.targetY := by
  unfold updateCell
  split <;> simp

theorem foldl_updateCell_fields (updated : List CellUpdate) :
    ∀ (g : Game), (updated.foldl updateCell g).MyIDs = g.MyIDs
      ∧ (updated.foldl updateCell g).targetX = g.targetX
      ∧ (updated.foldl updateCell g).targetY = g.targetY := by
  induction updated with
  | nil => intro g; simp
  | cons u us ih =>
    intro g
    rw [List.foldl_cons]
    obtain ⟨h1, h2, h3⟩ := ih (updateCell g u)
    obtain ⟨k1, k2, k3⟩ := updateCell_fields g u
    exact ⟨h1.trans k1, h2.trans k2, h3.trans k3⟩

theorem updateCell_cells_other (g : Game) (update : CellUpdate) (k : Nat)
    (h : k ≠ update.ID) : (updateCell g update).Cells k = g.Cells k := by
  unfold updateCell
  split <;> simp [setCell, h]

theorem updateCell_cells_new (g : Game) (update : CellUpdate)
    (h : g.Cells update.ID = none) :
    (updateCell g update).Cells update.ID
      = some { ID := update.ID, Name := update.Name,
               Position := { X := update.Point.X, Y := update.Point.Y },
               Heading := Heading.zero, Size := update.Size,
               Color := { R := update.R, G := update.G, B := update.B, A := 255 },
               IsVirus := update.Virus } := by
  unfold updateCell
  rw [h]
  simp [setCell]

theorem updateCell_cells_known (g : Game) (update : CellUpdate) (cell : Cell)
    (h : g.Cells update.ID = some cell) :
    (updateCell g update).Cells update.ID
      = some { ID := cell.ID,
               Name := if update.Name ≠ [] then update.Name else cell.Name,
               Position := { X := update.Point.X, Y := update.Point.Y },
               Heading :=
                 if cell.Position = { X := update.Point.X, Y := update.Point.Y } then
                   Heading.zero
                 else Heading.Normalize
                   { X := update.Point.X - cell.Position.X,
                     Y := update.Point.Y - cell.Position.Y },
               Size := update.Size,
               Color := cell.Color,
               IsVirus := update.Virus } := by
  unfold updateCell
  rw [h]
  obtain ⟨id, name, ⟨px, py⟩, hd, sz, col, vir⟩ := cell
  by_cases hx : px = update.Point.X <;> by_cases hy : py = update.Point.Y <;>
    simp [setCell, Vec2.ApproxEqual, Vec2.Sub, hx, hy]

theorem foldl_updateCell_cells_other (updated : List CellUpdate) (k : Nat) :
    ∀ (g : Game), (∀ r ∈ updated, r.ID ≠ k) →
      (updated.foldl updateCell g).Cells k = g.Cells k := by
  induction updated with
  | nil => intro g _; rfl
  | cons u us ih =>
    intro g h
    rw [List.foldl_cons, ih _ (fun r hr => h r (List.mem_cons_of_mem _ hr))]
    exact updateCell_cells_other g u k (fun e => h u (List.mem_cons_self _ _) e.symm)

theorem split_single_update (updated : List CellUpdate) (r : CellUpdate)
    (hr : r ∈ updated) (h1 : (updated.map CellUpdate.ID).count r.ID = 1) :
    ∃ before after : List CellUpdate, updated = before ++ r :: after
      ∧ (∀ x ∈ before, x.ID ≠ r.ID) ∧ (∀ x ∈ after, x.ID ≠ r.ID) := by
  obtain ⟨s, t, rfl⟩ := List.append_of_mem hr
  refine ⟨s, t, rfl, ?_, ?_⟩
  · intro x hx hid
    have : 0 < (s.map CellUpdate.ID).count r.ID :=
      List.count_pos_iff.mpr (List.mem_map.mpr ⟨x, hx, hid⟩)
    simp [List.count_append, List.count_cons] at h1
    omega
  · intro x hx hid
    have : 0 < (t.map CellUpdate.ID).count r.ID :=
      List.count_pos_iff.mpr (List.mem_map.mpr ⟨x, hx, hid⟩)
    simp [List.count_append, List.count_cons] at h1
    omega

theorem foldl_updateCell_single (updated : List CellUpdate) (r : CellUpdate) (g : Game)
    (hr : r ∈ updated) (h1 : (updated.map CellUpdate.ID).count r.ID = 1) :
    ∃ g1 : Game, g1.Cells r.ID = g.Cells r.ID
      ∧ (updated.foldl updateCell g).Cells r.ID = (updateCell g1 r).Cells r.ID := by
  obtain ⟨before, after, rfl, hb, ha⟩ := split_single_update updated r hr h1
  refine ⟨before.foldl updateCell g, foldl_updateCell_cells_other before r.ID g hb, ?_⟩
  rw [List.foldl_append, List.foldl_cons]
  exact foldl_updateCell_cells_other after r.ID _ ha

/-! ### The cleanup pass -/

theorem cleanCell_cells (g : Game) (id k : Nat) :
    (cleanCell g id).Cells k = if k = id then none else g.Cells k := by
  unfold cleanCell
  simp only
  split
  · split <;> rfl
  · rfl

theorem cleanCell_MyIDs (g : Game) (id : Nat) :
    (cleanCell g id).MyIDs = g.MyIDs.erase id := by
  unfold cleanCell
  simp only
  split
  · split <;> rfl
  · rename_i h
    exact (Finset.erase_eq_of_not_mem h).symm

theorem cleanCell_target (g : Game) (id : Nat) :
    ((cleanCell g id).targetX, (cleanCell g id).targetY)
      = if id ∈ g.MyIDs ∧ g.MyIDs.erase id = ∅ then (0, 0) else (g.targetX, g.targetY) := by
  unfold cleanCell
  simp only
  by_cases h : id ∈ g.MyIDs
  · by_cases h2 : g.MyIDs.erase id = ∅
    · simp [h, h2]
    · have h3 : (g.MyIDs.erase id).card ≠ 0 := by
        rwa [Ne, Finset.card_eq_zero]
      simp only [h, h2, if_true, and_false, if_false, if_neg h3]
  · simp [h]

theorem foldl_cleanCell_cells (clean : List Nat) :
    ∀ (g : Game) (k : Nat), (clean.foldl cleanCell g).Cells k
      = if k ∈ clean then none else g.Cells k := by
  induction clean with
  | nil => intro g k; simp
  | cons i is ih =>
    intro g k
    rw [List.foldl_cons, ih, cleanCell_cells]
    by_cases h1 : k = i <;> by_cases h2 : k ∈ is <;> simp [h1, h2]

theorem foldl_cleanCell_MyIDs (clean : List Nat) :
    ∀ (g : Game) (k : Nat), k ∈ (clean.foldl cleanCell g).MyIDs
      ↔ k ∈ g.MyIDs ∧ k ∉ clean := by
  induction clean with
  | nil => intro g k; simp
  | cons i is ih =>
    intro g k
    rw [List.foldl_cons, ih, cleanCell_MyIDs, Finset.mem_erase, List.mem_cons]
    tauto

theorem foldl_cleanCell_target (clean : List Nat) :
    ∀ (g : Game),
      ((clean.foldl cleanCell g).targetX, (clean.foldl cleanCell g).targetY)
        = if (∃ id ∈ clean, id ∈ g.MyIDs) ∧ (clean.foldl cleanCell g).MyIDs = ∅ then (0, 0)
          else (g.targetX, g.targetY) := by
  induction clean with
  | nil => intro g; simp
  | cons i is ih =>
    intro g
    rw [List.foldl_cons]
    have ih1 := ih (cleanCell g i)
    have hmem := foldl_cleanCell_MyIDs is (cleanCell g i)
    rw [cleanCell_MyIDs] at ih1 hmem
    rw [cleanCell_target] at ih1
    rw [ih1]
    by_cases hA : i ∈ g.MyIDs ∧ g.MyIDs.erase i = ∅
    · have hempty : (is.foldl cleanCell (cleanCell g i)).MyIDs = ∅ := by
        apply Finset.eq_empty_of_forall_not_mem
        intro k hk
        have := (hmem k).mp hk
        rw [hA.2] at this
        simp at this
      have hex : ∃ id ∈ i :: is, id ∈ g.MyIDs := ⟨i, List.mem_cons_self _ _, hA.1⟩
      have hgoal : (∃ id ∈ i :: is, id ∈ g.MyIDs)
          ∧ (is.foldl cleanCell (cleanCell g i)).MyIDs = ∅ := ⟨hex, hempty⟩
      rw [if_pos hA, if_pos hgoal, ite_self]
    · rw [if_neg hA]
      have hiff : ((∃ id ∈ is, id ∈ g.MyIDs.erase i)
            ∧ (is.foldl cleanCell (cleanCell g i)).MyIDs = ∅)
          ↔ ((∃ id ∈ i :: is, id ∈ g.MyIDs)
            ∧ (is.foldl cleanCell (cleanCell g i)).MyIDs = ∅) := by
        constructor
        · rintro ⟨⟨j, hj, hjm⟩, he⟩
          exact ⟨⟨j, List.mem_cons_of_mem _ hj, Finset.mem_of_mem_erase hjm⟩, he⟩
        · rintro ⟨⟨j, hj, hjm⟩, he⟩
          refine ⟨?_, he⟩
          by_cases hi : i ∈ g.MyIDs
          · have hne : g.MyIDs.erase i ≠ ∅ := fun e => hA ⟨hi, e⟩
            obtain ⟨m, hm⟩ := Finset.nonempty_iff_ne_empty.mpr hne
            refine ⟨m, ?_, hm⟩
            by_contra hmis
            have : m ∈ (is.foldl cleanCell (cleanCell g i)).MyIDs := (hmem m).mpr ⟨hm, hmis⟩
            rw [he] at this
            simp at this
          · have hji : j ≠ i := fun e => hi (e ▸ hjm)
            rcases List.mem_cons.mp hj with h | h
            · exact absurd h hji
            · exact ⟨j, h, Finset.mem_erase.mpr ⟨hji, hjm⟩⟩
      by_cases hB : (∃ id ∈ i :: is, id ∈ g.MyIDs)
          ∧ (is.foldl cleanCell (cleanCell g i)).MyIDs = ∅
      · rw [if_pos hB, if_pos (hiff.mpr hB)]
      · rw [if_neg hB, if_neg (fun h => hB (hiff.mp h))]

/-! ### The three passes of an update batch -/

theorem applyMessage_update (g : Game) (destroyed : List CellDestroyed)
    (updated : List CellUpdate) (clean : List Nat) :
    applyMessage g (Message.MessageUpdate destroyed updated clean)
      = clean.foldl cleanCell (updated.foldl updateCell (destroyed.foldl destroyCell g)) :=
  rfl

/-- C3: applying the batch `(D, U, C)` to a world state gives the same world
state (in particular the same cell map, owned-identity set and last commanded
target) as applying `(D, [], [])`, then `([], U, [])`, then `([], [], C)`. -/
theorem C3_batch_eq_three_passes (g : Game) (destroyed : List CellDestroyed)
    (updated : List CellUpdate) (clean : List Nat) :
    applyMessage g (Message.MessageUpdate destroyed updated clean)
      = applyMessage
          (applyMessage (applyMessage g (Message.MessageUpdate destroyed [] []))
            (Message.MessageUpdate [] updated []))
          (Message.MessageUpdate [] [] clean) := by
  simp only [applyMessage_update, List.foldl_nil]

/-- C5: after an update batch is applied, no id of its clean list is a key of
the cell map or a member of the owned-identity set, also when the same batch
inserts or updates that id. -/
theorem C5_clean_ids_absent (g : Game) (destroyed : List CellDestroyed)
    (updated : List CellUpdate) (clean : List Nat) (id : Nat) (h : id ∈ clean) :
    (applyMessage g (Message.MessageUpdate destroyed updated clean)).Cells id = none
      ∧ id ∉ (applyMessage g (Message.MessageUpdate destroyed updated clean)).MyIDs := by
  rw [applyMessage_update]
  constructor
  · rw [foldl_cleanCell_cells, if_pos h]
  · intro hmem
    exact ((foldl_cleanCell_MyIDs clean _ id).mp hmem).2 h

/-- C5 on a state that owns cell 4: a batch that inserts cell 4 and cleans it
leaves neither a map entry nor an owned id 4. -/
theorem C5_clean_ids_absent_witness :
    (applyMessage (applyMessage NewGame (Message.MessageMyID 4))
        (Message.MessageUpdate []
          [{ ID := 4, Point := { X := 1, Y := 2 }, Size := 30, R := 1, G := 2, B := 3,
             Virus := false, Agitated := false, Name := [65] }] [4])).Cells 4 = none
      ∧ 4 ∉ (applyMessage (applyMessage NewGame (Message.MessageMyID 4))
        (Message.MessageUpdate []
          [{ ID := 4, Point := { X := 1, Y := 2 }, Size := 30, R := 1, G := 2, B := 3,
             Virus := false, Agitated := false, Name := [65] }] [4])).MyIDs :=
  C5_clean_ids_absent _ _ _ _ 4 (by decide)

/-- C9: after an update batch, the last commanded target is (0, 0) when some
member of the owned-identity set of the old state is in the clean list and the
owned-identity set is empty afterwards; in every other case it is the target of
the old state. -/
theorem C9_target_reset (g : Game) (destroyed : List CellDestroyed)
    (updated : List CellUpdate) (clean : List Nat) :
    (((∃ id ∈ clean, id ∈ g.MyIDs)
        ∧ (applyMessage g (Message.MessageUpdate destroyed updated clean)).MyIDs = ∅) →
      (applyMessage g (Message.MessageUpdate destroyed updated clean)).targetX = 0
        ∧ (applyMessage g (Message.MessageUpdate destroyed updated clean)).targetY = 0)
    ∧ (¬ ((∃ id ∈ clean, id ∈ g.MyIDs)
        ∧ (applyMessage g (Message.MessageUpdate destroyed updated clean)).MyIDs = ∅) →
      (applyMessage g (Message.MessageUpdate destroyed updated clean)).targetX = g.targetX
        ∧ (applyMessage g (Message.MessageUpdate destroyed updated clean)).targetY
          = g.targetY) := by
  rw [applyMessage_update]
  have ht := foldl_cleanCell_target clean
    (updated.foldl updateCell (destroyed.foldl destroyCell g))
  obtain ⟨u1, u2, u3⟩ := foldl_updateCell_fields updated (destroyed.foldl destroyCell g)
  obtain ⟨d1, d2, d3⟩ := foldl_destroyCell_fields destroyed g
  rw [u1, u2, u3, d1, d2, d3] at ht
  constructor
  · intro h
    rw [if_pos h] at ht
    exact ⟨congrArg Prod.fst ht, congrArg Prod.snd ht⟩
  · intro h
    rw [if_neg h] at ht
    exact ⟨congrArg Prod.fst ht, congrArg Prod.snd ht⟩

/-- C9 on a state that owns cell 4 alone and has the target (5.0, 7.0):
cleaning id 4 empties the owned-identity set and resets the target. -/
theorem C9_target_reset_witness :
    ((∃ id ∈ [4], id ∈ ownsFour.MyIDs)
      ∧ (applyMessage ownsFour (Message.MessageUpdate [] [] [4])).MyIDs = ∅)
    ∧ (applyMessage ownsFour (Message.MessageUpdate [] [] [4])).targetX = 0
    ∧ (applyMessage ownsFour (Message.MessageUpdate [] [] [4])).targetY = 0 :=
  ⟨⟨⟨4, by decide, by decide⟩, by decide⟩,
    (C9_target_reset ownsFour [] [] [4]).1 ⟨⟨4, by decide, by decide⟩, by decide⟩⟩

/-- C4: after an update batch is applied, (1) every victim id of the batch
that is not the id of one of its update records is absent from the cell map,
and (2) every update record whose id occurs once among the update records, is
not in the clean list, and was absent from the old cell map or is a victim of
the batch, is in the cell map under its id with the id, position, size, colour
(alpha 255), virus flag and name of the record and the zero heading. -/
theorem C4_destroyed_absent_new_present (g : Game) (destroyed : List CellDestroyed)
    (updated : List CellUpdate) (clean : List Nat) :
    (∀ d ∈ destroyed, (∀ r ∈ updated, r.ID ≠ d.Victim) →
      (applyMessage g (Message.MessageUpdate destroyed updated clean)).Cells d.Victim = none)
    ∧ (∀ r ∈ updated, (updated.map CellUpdate.ID).count r.ID = 1 → r.ID ∉ clean →
      (g.Cells r.ID = none ∨ ∃ d ∈ destroyed, d.Victim = r.ID) →
      (applyMessage g (Message.MessageUpdate destroyed updated clean)).Cells r.ID
        = some { ID := r.ID, Name := r.Name,
                 Position := { X := r.Point.X, Y := r.Point.Y },
                 Heading := Heading.zero, Size := r.Size,
                 Color := { R := r.R, G := r.G, B := r.B, A := 255 },
                 IsVirus := r.Virus }) := by
  rw [applyMessage_update]
  constructor
  · intro d hd hnot
    rw [foldl_cleanCell_cells]
    split
    · rfl
    · rw [foldl_updateCell_cells_other updated d.Victim _ hnot, foldl_destroyCell_cells,
        if_pos (List.mem_map.mpr ⟨d, hd, rfl⟩)]
  · intro r hr h1 hclean habs
    rw [foldl_cleanCell_cells, if_neg hclean]
    obtain ⟨g1, hg1, hfold⟩ :=
      foldl_updateCell_single updated r (destroyed.foldl destroyCell g) hr h1
    rw [hfold]
    apply updateCell_cells_new
    rw [hg1, foldl_destroyCell_cells]
    split
    · rfl
    · rename_i hv
      rcases habs with h | ⟨d, hd, hdv⟩
      · exact h
      · exact absurd (List.mem_map.mpr ⟨d, hd, hdv⟩) hv

/-- C4 on the batch destroyed = [(1, 2)], updated = [(id 1, x 10, y 10, size
50, rgb (1, 2, 3), flags 0, name "A")], clean = [] applied to the initial
state: the map holds id 1 with those attributes and the zero heading, and does
not hold id 2. -/
theorem C4_destroyed_absent_new_present_witness :
    (applyMessage NewGame (Message.MessageUpdate [{ Attacker := 1, Victim := 2 }]
        [{ ID := 1, Point := { X := 10, Y := 10 }, Size := 50, R := 1, G := 2, B := 3,
           Virus := false, Agitated := false, Name := [65] }] [])).Cells 1
      = some { ID := 1, Name := [65], Position := { X := 10, Y := 10 },
               Heading := Heading.zero, Size := 50,
               Color := { R := 1, G := 2, B := 3, A := 255 }, IsVirus := false }
    ∧ (applyMessage NewGame (Message.MessageUpdate [{ Attacker := 1, Victim := 2 }]
        [{ ID := 1, Point := { X := 10, Y := 10 }, Size := 50, R := 1, G := 2, B := 3,
           Virus := false, Agitated := false, Name := [65] }] [])).Cells 2 = none :=
  ⟨(C4_destroyed_absent_new_present NewGame [{ Attacker := 1, Victim := 2 }]
      [{ ID := 1, Point := { X := 10, Y := 10 }, Size := 50, R := 1, G := 2, B := 3,
         Virus := false, Agitated := false, Name := [65] }] []).2
      { ID := 1, Point := { X := 10, Y := 10 }, Size := 50, R := 1, G := 2, B := 3,
        Virus := false, Agitated := false, Name := [65] }
      (by decide) (by decide) (by decide) (Or.inl rfl),
    (C4_destroyed_absent_new_present NewGame [{ Attacker := 1, Victim := 2 }]
      [{ ID := 1, Point := { X := 10, Y := 10 }, Size := 50, R := 1, G := 2, B := 3,
         Virus := false, Agitated := false, Name := [65] }] []).1
      { Attacker := 1, Victim := 2 } (by decide) (by decide)⟩

/-! ### Reachable world states -/

theorem CellsOK_NewGame : CellsOK NewGame := by
  intro k c h
  simp [NewGame] at h

theorem CellsOK_destroyCell (g : Game) (dest : CellDestroyed) (h : CellsOK g) :
    CellsOK (destroyCell g dest) := by
  intro k c hk
  rw [destroyCell_cells] at hk
  split at hk
  · simp at hk
  · exact h k c hk

theorem CellsOK_cleanCell (g : Game) (id : Nat) (h : CellsOK g) :
    CellsOK (cleanCell g id) := by
  intro k c hk
  rw [cleanCell_cells] at hk
  split at hk
  · simp at hk
  · exact h k c hk

theorem CellsOK_updateCell (g : Game) (update : CellUpdate) (h : CellsOK g) :
    CellsOK (updateCell g update) := by
  intro k c hk
  by_cases hid : k = update.ID
  · subst hid
    cases hold : g.Cells update.ID with
    | none =>
      rw [updateCell_cells_new g update hold] at hk
      injection hk with hk
      subst hk
      exact ⟨rfl, rfl⟩
    | some cell =>
      rw [updateCell_cells_known g update cell hold] at hk
      injection hk with hk
      subst hk
      exact h update.ID cell hold
  · rw [updateCell_cells_other g update k hid] at hk
    exact h k c hk

theorem CellsOK_foldl {α : Type} (f : Game → α → Game)
    (hf : ∀ g a, CellsOK g → CellsOK (f g a)) (l : List α) :
    ∀ g, CellsOK g → CellsOK (l.foldl f g) := by
  induction l with
  | nil => intro g h; exact h
  | cons a as ih => intro g h; exact ih _ (hf g a h)

theorem CellsOK_applyMessage (g : Game) (msg : Message) (h : CellsOK g) :
    CellsOK (applyMessage g msg) := by
  cases msg with
  | MessageUpdate destroyed updated clean =>
    rw [applyMessage_update]
    exact CellsOK_foldl _ CellsOK_cleanCell _ _
      (CellsOK_foldl _ CellsOK_updateCell _ _
        (CellsOK_foldl _ CellsOK_destroyCell _ _ h))
  | _ => exact h

theorem Reachable.cellsOK {g : Game} (h : Reachable g) : CellsOK g := by
  induction h with
  | init => exact CellsOK_NewGame
  | step g msg _ ih => exact CellsOK_applyMessage g msg ih

/-! ### Updates of a known cell -/

theorem SetTargetPos_cells (g : Game) (x_ y_ : Nat) :
    (SetTargetPos g x_ y_).1.Cells = g.Cells := by
  unfold SetTargetPos
  simp only
  split <;> rfl

theorem SessionState.cellsKeyed {g : Game} (h : SessionState g) : CellsOK g := by
  induction h with
  | init => exact CellsOK_NewGame
  | message g msg _ ih => exact CellsOK_applyMessage g msg ih
  | target g x_ y_ _ ih =>
    intro k c hk
    rw [SetTargetPos_cells] at hk
    exact ih k c hk

/-- C6: in every world state whose cell map holds under `u` the cell `c` with
that id (`c.ID = u`, as for every entry of every state a session goes through,
`SessionState.cellsKeyed`, whatever its target, leaderboard, bounds and owned
ids), a batch that does not destroy `u`, has exactly one update record `r` for
`u` and does not clean `u` leaves under `u` a cell with ID `u`, position
`(r.X, r.Y)`, size `r.Size`, virus flag `r.Virus`, and name `r.Name` if that
is non-empty and the name of `c` otherwise. -/
theorem C6_known_cell_updated (g : Game) (u : Nat) (c : Cell)
    (hc : g.Cells u = some c) (hid : c.ID = u)
    (destroyed : List CellDestroyed) (updated : List CellUpdate) (clean : List Nat)
    (r : CellUpdate)
    (hD : ∀ d ∈ destroyed, d.Victim ≠ u)
    (hr : r ∈ updated) (hru : r.ID = u)
    (h1 : (updated.map CellUpdate.ID).count u = 1)
    (hC : u ∉ clean) :
    ∃ c1 : Cell,
      (applyMessage g (Message.MessageUpdate destroyed updated clean)).Cells u = some c1
      ∧ c1.ID = u
      ∧ c1.Position = { X := r.Point.X, Y := r.Point.Y }
      ∧ c1.Size = r.Size
      ∧ c1.IsVirus = r.Virus
      ∧ c1.Name = if r.Name ≠ [] then r.Name else c.Name := by
  subst hru
  rw [applyMessage_update, foldl_cleanCell_cells, if_neg hC]
  obtain ⟨g1, hg1, hfold⟩ :=
    foldl_updateCell_single updated r (destroyed.foldl destroyCell g) hr h1
  have hnot : r.ID ∉ destroyed.map CellDestroyed.Victim := by
    intro hm
    obtain ⟨d, hd, hdv⟩ := List.mem_map.mp hm
    exact hD d hd hdv
  rw [foldl_destroyCell_cells, if_neg hnot, hc] at hg1
  rw [hfold, updateCell_cells_known g1 r c hg1]
  exact ⟨_, rfl, hid, rfl, rfl, rfl, rfl⟩

/-- C6 on the state `targetedOne`, which has seen cell 1 at (10, 10) with size
50 and the name "A" and has the commanded target (1.0, -5.0): a batch holding
the single record `secondSighting` (position (13, 14), size 60, virus, empty
name) leaves cell 1 at (13, 14) with size 60, the virus flag and the old
name. -/
theorem C6_known_cell_updated_witness :
    (targetedOne.targetX = 0x3FF0000000000000 ∧ targetedOne.targetY = 0xC014000000000000)
    ∧ ∃ c1 : Cell,
      (applyMessage targetedOne (Message.MessageUpdate [] [secondSighting] [])).Cells 1
        = some c1
      ∧ c1.ID = 1
      ∧ c1.Position = { X := 13, Y := 14 }
      ∧ c1.Size = 60
      ∧ c1.IsVirus = true
      ∧ c1.Name = [65] :=
  ⟨⟨by decide, by decide⟩,
    C6_known_cell_updated targetedOne 1
      { ID := 1, Name := [65], Position := { X := 10, Y := 10 }, Heading := Heading.zero,
        Size := 50, Color := { R := 1, G := 2, B := 3, A := 255 }, IsVirus := false }
      (by decide) (by decide) [] [secondSighting] [] secondSighting
      (by decide) (by decide) (by decide) (by decide) (by decide)⟩

/-- C7 (failing input): the state `seenOne` holds cell 1 with the colour
(1, 2, 3); after a batch whose single update record for cell 1 carries the
colour (4, 5, 6), with nothing destroyed or cleaned, the cell under 1 still
has the colour (1, 2, 3, 255): the branch of `RunOnce` for a known cell
assigns `IsVirus`, `Position`, `Heading`, `Size` and `Name` and never
`Color`, which only the insertion branch sets from the record. -/
theorem C7_colour_kept_on_update :
    ((applyMessage seenOne (Message.MessageUpdate [] [secondSighting] [])).Cells 1).map
        Cell.Color = some { R := 1, G := 2, B := 3, A := 255 }
      ∧ (secondSighting.R, secondSighting.G, secondSighting.B) = (4, 5, 6) := by
  decide

/-! ## Theorems: `Read` is total

The iteration budget of the update loop is never used up: every cursor
function either panics with `io.EOF` or returns a suffix no longer than the
buffer it was given, and reading an id shortens the buffer. -/

theorem Returns.bind {α β : Type} {P : α → Prop} {Q : β → Prop} {r : Except Error α}
    {f : α → Except Error β} (hr : Returns P r) (hf : ∀ a, P a → Returns Q (f a)) :
    Returns Q (r >>= f) := by
  cases r with
  | error e => exact hr
  | ok a => exact hf a hr

theorem Returns.mono {α : Type} {P Q : α → Prop} {r : Except Error α}
    (hr : Returns P r) (h : ∀ a, P a → Q a) : Returns Q r := by
  cases r with
  | error e => exact hr
  | ok a => exact h a hr

theorem mustReadByte_returns (buffer : List Nat) :
    Returns (fun a => a.2.length < buffer.length) (mustReadByte buffer) := by
  cases buffer with
  | nil => rfl
  | cons b rest => simp [mustReadByte, Returns]

theorem mustReadBytes_returns (n : Nat) (buffer : List Nat) :
    Returns (fun a => a.2.length ≤ buffer.length ∧ (0 < n → a.2.length < buffer.length))
      (mustReadBytes n buffer) := by
  cases buffer with
  | nil => rfl
  | cons b rest =>
    rw [mustReadBytes_cons]
    simp only [Returns, List.length_drop, List.length_cons]
    omega

theorem mustReadUint16_returns (buffer : List Nat) :
    Returns (fun a => a.2.length < buffer.length) (mustReadUint16 buffer) := by
  have h := mustReadBytes_returns 2 buffer
  unfold mustReadUint16
  cases hb : mustReadBytes 2 buffer with
  | error e => rw [hb] at h; exact h
  | ok a => rw [hb] at h; exact h.2 (by norm_num)

theorem mustReadInt16_returns (buffer : List Nat) :
    Returns (fun a => a.2.length < buffer.length) (mustReadInt16 buffer) := by
  have h := mustReadBytes_returns 2 buffer
  unfold mustReadInt16
  cases hb : mustReadBytes 2 buffer with
  | error e => rw [hb] at h; exact h
  | ok a => rw [hb] at h; exact h.2 (by norm_num)

theorem mustReadUint32_returns (buffer : List Nat) :
    Returns (fun a => a.2.length < buffer.length) (mustReadUint32 buffer) := by
  have h := mustReadBytes_returns 4 buffer
  unfold mustReadUint32
  cases hb : mustReadBytes 4 buffer with
  | error e => rw [hb] at h; exact h
  | ok a => rw [hb] at h; exact h.2 (by norm_num)

theorem mustReadFloat32_returns (buffer : List Nat) :
    Returns (fun a => a.2.length < buffer.length) (mustReadFloat32 buffer) := by
  have h := mustReadBytes_returns 4 buffer
  unfold mustReadFloat32
  cases hb : mustReadBytes 4 buffer with
  | error e => rw [hb] at h; exact h
  | ok a => rw [hb] at h; exact h.2 (by norm_num)

theorem mustReadFloat64_returns (buffer : List Nat) :
    Returns (fun a => a.2.length < buffer.length) (mustReadFloat64 buffer) := by
  have h := mustReadBytes_returns 8 buffer
  unfold mustReadFloat64
  cases hb : mustReadBytes 8 buffer with
  | error e => rw [hb] at h; exact h
  | ok a => rw [hb] at h; exact h.2 (by norm_num)

theorem skipBytes_returns (cond : Bool) (n : Nat) (buffer : List Nat) :
    Returns (fun rest => rest.length ≤ buffer.length) (skipBytes cond n buffer) := by
  have h := mustReadBytes_returns n buffer
  unfold skipBytes
  cases cond with
  | false => simp [Returns]
  | true =>
    simp only [if_true]
    cases hb : mustReadBytes n buffer with
    | error e => rw [hb] at h; exact h
    | ok a => rw [hb] at h; exact h.1

theorem readChars_returns (chars buffer : List Nat) :
    Returns (fun a => a.2.length ≤ buffer.length) (readChars chars buffer) := by
  induction chars, buffer using readChars.induct with
  | case1 chars => rfl
  | case2 chars => simp [readChars, Returns]
  | case3 chars b0 h => simp [readChars, Returns, h]
  | case4 chars b0 b1 rest h =>
    simp only [readChars, Returns, h, if_true, List.length_cons]
    omega
  | case5 chars b0 b1 rest h ih =>
    rw [readChars, if_neg h]
    exact ih.mono (fun a ha => by simp only [List.length_cons]; omega)

theorem mustReadString_returns (buffer : List Nat) :
    Returns (fun a => a.2.length ≤ buffer.length) (mustReadString buffer) := by
  have h := readChars_returns [] buffer
  unfold mustReadString
  cases hb : readChars [] buffer with
  | error e => rw [hb] at h; exact h
  | ok a => rw [hb] at h; exact h

theorem readCellUpdate_returns (id : Nat) (buffer : List Nat) :
    Returns (fun a => a.2.length ≤ buffer.length) (readCellUpdate id buffer) := by
  unfold readCellUpdate
  refine (mustReadInt16_returns buffer).bind ?_
  rintro ⟨x, b1⟩ h1
  refine (mustReadInt16_returns b1).bind ?_
  rintro ⟨y, b2⟩ h2
  refine (mustReadInt16_returns b2).bind ?_
  rintro ⟨size, b3⟩ h3
  refine (mustReadByte_returns b3).bind ?_
  rintro ⟨colorR, b4⟩ h4
  refine (mustReadByte_returns b4).bind ?_
  rintro ⟨colorG, b5⟩ h5
  refine (mustReadByte_returns b5).bind ?_
  rintro ⟨colorB, b6⟩ h6
  refine (mustReadByte_returns b6).bind ?_
  rintro ⟨pointFlags, b7⟩ h7
  refine (skipBytes_returns _ 4 b7).bind ?_
  intro b8 h8
  refine (skipBytes_returns _ 8 b8).bind ?_
  intro b9 h9
  refine (skipBytes_returns _ 16 b9).bind ?_
  intro b10 h10
  refine (mustReadString_returns b10).bind ?_
  rintro ⟨pointName, b11⟩ h11
  simp only [Returns, pure, Except.pure] at *
  omega

theorem readUpdated_returns :
    ∀ (fuel : Nat) (buffer : List Nat), buffer.length < fuel →
      Returns (fun a => a.2.length ≤ buffer.length) (readUpdated fuel buffer) := by
  intro fuel
  induction fuel with
  | zero => intro buffer h; omega
  | succ fuel ih =>
    intro buffer hf
    unfold readUpdated
    refine (mustReadUint32_returns buffer).bind ?_
    rintro ⟨id, b1⟩ h1
    simp only at h1 ⊢
    split
    · simp only [Returns, pure, Except.pure]
      omega
    · refine (readCellUpdate_returns id b1).bind ?_
      rintro ⟨u, b2⟩ h2
      simp only at h2 ⊢
      refine (ih b2 (by omega)).bind ?_
      rintro ⟨us, b3⟩ h3
      simp only [Returns, pure, Except.pure] at *
      omega

theorem readDestroyed_returns :
    ∀ (n : Nat) (buffer : List Nat),
      Returns (fun a => a.2.length ≤ buffer.length) (readDestroyed n buffer) := by
  intro n
  induction n with
  | zero => intro buffer; simp [readDestroyed, Returns]
  | succ n ih =>
    intro buffer
    unfold readDestroyed
    refine (mustReadUint32_returns buffer).bind ?_
    rintro ⟨attacker, b1⟩ h1
    refine (mustReadUint32_returns b1).bind ?_
    rintro ⟨victim, b2⟩ h2
    refine (ih b2).bind ?_
    rintro ⟨ds, b3⟩ h3
    simp only [Returns, pure, Except.pure] at *
    omega

theorem readClean_returns :
    ∀ (n : Nat) (buffer : List Nat), Returns (fun _ => True) (readClean n buffer) := by
  intro n
  induction n with
  | zero => intro buffer; simp [readClean, Returns]
  | succ n ih =>
    intro buffer
    unfold readClean
    refine (mustReadUint32_returns buffer).bind ?_
    rintro ⟨id, b1⟩ _
    refine (ih b1).bind ?_
    rintro ⟨ids, b2⟩ _
    trivial

theorem readItems_returns :
    ∀ (n : Nat) (buffer : List Nat), Returns (fun _ => True) (readItems n buffer) := by
  intro n
  induction n with
  | zero => intro buffer; simp [readItems, Returns]
  | succ n ih =>
    intro buffer
    unfold readItems
    refine (mustReadUint32_returns buffer).bind ?_
    rintro ⟨id, b1⟩ _
    refine (mustReadString_returns b1).bind ?_
    rintro ⟨name, b2⟩ _
    refine (ih b2).bind ?_
    rintro ⟨items, b3⟩ _
    trivial

theorem readSwitch_returns (messageType : Nat) (buffer : List Nat) :
    Returns (fun a => a.1.2 ≠ some Error.outOfFuel) (readSwitch messageType buffer) := by
  unfold readSwitch
  split
  · refine (mustReadUint16_returns buffer).bind ?_
    rintro ⟨numCellsDestroyed, b1⟩ _
    refine (readDestroyed_returns numCellsDestroyed b1).bind ?_
    rintro ⟨destroyed, b2⟩ _
    refine (readUpdated_returns (b2.length + 1) b2 (Nat.lt_succ_self _)).bind ?_
    rintro ⟨updated, b3⟩ _
    refine (mustReadUint32_returns b3).bind ?_
    rintro ⟨numClean, b4⟩ _
    refine (readClean_returns numClean b4).bind ?_
    rintro ⟨clean, b5⟩ _
    simp [Returns, pure, Except.pure]
  split
  · refine (mustReadUint32_returns buffer).bind ?_
    rintro ⟨myCell, b1⟩ _
    simp [Returns, pure, Except.pure]
  split
  · refine (mustReadUint32_returns buffer).bind ?_
    rintro ⟨numItems, b1⟩ _
    refine (readItems_returns numItems b1).bind ?_
    rintro ⟨items, b2⟩ _
    simp [Returns, pure, Except.pure]
  split
  · refine (mustReadUint32_returns buffer).bind ?_
    rintro ⟨n, b1⟩ _
    simp only
    split
    · simp [Returns, pure, Except.pure]
    · refine (mustReadFloat32_returns b1).bind ?_
      rintro ⟨red, b2⟩ _
      refine (mustReadFloat32_returns b2).bind ?_
      rintro ⟨green, b3⟩ _
      refine (mustReadFloat32_returns b3).bind ?_
      rintro ⟨blue, b4⟩ _
      simp [Returns, pure, Except.pure]
  split
  · refine (mustReadFloat64_returns buffer).bind ?_
    rintro ⟨left, b1⟩ _
    refine (mustReadFloat64_returns b1).bind ?_
    rintro ⟨top, b2⟩ _
    refine (mustReadFloat64_returns b2).bind ?_
    rintro ⟨right, b3⟩ _
    refine (mustReadFloat64_returns b3).bind ?_
    rintro ⟨bottom, b4⟩ _
    simp [Returns, pure, Except.pure]
  split
  · refine (mustReadBytes_returns 14 buffer).bind ?_
    rintro ⟨b, b1⟩ _
    simp only
    split <;> simp [Returns, pure, Except.pure]
  · simp [Returns, pure, Except.pure]

theorem readFrom_returns (msgBytes : List Nat) :
    Returns (fun a => a.1.2 ≠ some Error.outOfFuel) (readFrom msgBytes) := by
  unfold readFrom
  refine (mustReadByte_returns msgBytes).bind ?_
  rintro ⟨messageType, b1⟩ _
  simp only
  split
  · refine (mustReadByte_returns (b1.drop 4)).bind ?_
    rintro ⟨messageType2, b2⟩ _
    exact readSwitch_returns messageType2 b2
  · exact readSwitch_returns messageType b1

/-- `Read` returns for every message, and the error it returns is nil,
`io.EOF` or `ErrUnknownMessage`: the iteration budget of the update loop is
never exhausted. -/
theorem Read_ne_outOfFuel (msgBytes : List Nat) :
    (Read msgBytes).2 ≠ some Error.outOfFuel := by
  have h := readFrom_returns msgBytes
  unfold Read
  cases hr : readFrom msgBytes with
  | error e =>
    rw [hr] at h
    simp only [Returns] at h
    simp [h]
  | ok a =>
    rw [hr] at h
    exact h

/-- The loop of `mustReadString` written with `mustReadBytes 2`, as in the
source: `readChars` is that loop. -/
theorem readChars_loop (chars buffer : List Nat) :
    readChars chars buffer
      = match mustReadBytes 2 buffer with
        | .error e => .error e
        | .ok (b, rest) =>
          if leUint16 b = 0 then .ok (chars, rest)
          else readChars (chars ++ [leUint16 b]) rest := by
  match buffer with
  | [] => rfl
  | [b0] =>
    simp only [readChars, mustReadBytes_cons]
    by_cases h : b0 = 0 <;> simp [h, leUint16, readChars]
  | b0 :: b1 :: rest =>
    simp only [readChars, mustReadBytes_cons]
    simp

/-! ## Theorems: tag dispatch of `Read` -/

theorem readFrom_skipped (p : List Nat) (hp : p.length = 4) (t : Nat) (rest : List Nat) :
    readFrom (0xF0 :: (p ++ t :: rest)) = readSwitch t rest := by
  simp only [readFrom, mustReadByte, bind, Except.bind, if_true]
  rw [List.drop_left' hp]

theorem readFrom_plain (t : Nat) (rest : List Nat) (ht : t ≠ 0xF0) :
    readFrom (t :: rest) = readSwitch t rest := by
  simp only [readFrom, mustReadByte, bind, Except.bind, if_neg ht]

/-- C11: for every four bytes `p` and every message `t :: rest` whose first
byte `t` is not 0xF0, `Read` on `0xF0 || p || t :: rest` returns the same
message value and the same error as `Read` on `t :: rest`. -/
theorem C11_prefix_skipped (p : List Nat) (t : Nat) (rest : List Nat)
    (hp : p.length = 4) (ht : t ≠ 0xF0) :
    Read (0xF0 :: (p ++ t :: rest)) = Read (t :: rest) := by
  unfold Read
  rw [readFrom_skipped p hp, readFrom_plain t rest ht]

/-- C11 on the identity-assignment message `0x20 || u32le(7)` behind the
prefix bytes 1, 2, 3, 4. -/
theorem C11_prefix_skipped_witness :
    Read (0xF0 :: ([1, 2, 3, 4] ++ 0x20 :: u32le 7)) = Read (0x20 :: u32le 7)
      ∧ Read (0x20 :: u32le 7) = (Message.MessageMyID 7, none) :=
  ⟨C11_prefix_skipped [1, 2, 3, 4] 0x20 (u32le 7) (by decide) (by decide), by decide⟩

theorem readSwitch_unknown (t : Nat) (rest : List Nat)
    (ht : t ∉ [0x10, 0x20, 0x31, 0x32, 0x40, 0x48]) :
    readSwitch t rest
      = .ok ((Message.messageType t, some Error.ErrUnknownMessage), rest) := by
  simp only [List.mem_cons, List.mem_singleton, List.not_mem_nil, or_false, not_or] at ht
  obtain ⟨h1, h2, h3, h4, h5, h6⟩ := ht
  simp only [readSwitch, if_neg h1, if_neg h2, if_neg h3, if_neg h4, if_neg h5, if_neg h6,
    pure, Except.pure]

/-- C12: when the effective tag `t` (the first byte if that is not 0xF0, or
the byte after a leading 0xF0 and four skipped bytes) is none of 0x10, 0x20,
0x31, 0x32, 0x40, 0x48, `Read` returns `ErrUnknownMessage` together with the
tag `t`, whatever bytes follow. -/
theorem C12_unknown_tag (t : Nat) (rest p : List Nat)
    (ht : t ∉ [0x10, 0x20, 0x31, 0x32, 0x40, 0x48]) :
    (t ≠ 0xF0 → Read (t :: rest) = (Message.messageType t, some Error.ErrUnknownMessage))
    ∧ (p.length = 4 →
      Read (0xF0 :: (p ++ t :: rest))
        = (Message.messageType t, some Error.ErrUnknownMessage)) := by
  constructor
  · intro h
    simp only [Read, readFrom_plain t rest h, readSwitch_unknown t rest ht]
  · intro hp
    simp only [Read, readFrom_skipped p hp, readSwitch_unknown t rest ht]

/-- C12 on the tag 0x11 followed by two bytes, alone and behind a 0xF0
prefix. -/
theorem C12_unknown_tag_witness :
    Read (0x11 :: [5, 6]) = (Message.messageType 0x11, some Error.ErrUnknownMessage)
    ∧ Read (0xF0 :: ([1, 2, 3, 4] ++ 0x11 :: [5, 6]))
        = (Message.messageType 0x11, some Error.ErrUnknownMessage) :=
  ⟨(C12_unknown_tag 0x11 [5, 6] [1, 2, 3, 4] (by decide)).1 (by decide),
    (C12_unknown_tag 0x11 [5, 6] [1, 2, 3, 4] (by decide)).2 (by decide)⟩

theorem mustReadFloat64_block (a rest : List Nat) (ha : a.length = 8) :
    mustReadFloat64 (a ++ rest) = .ok (leUint64 a, rest) := by
  have h := mustReadBytes_full 8 (a ++ rest) (by norm_num)
    (by simp only [List.length_append]; omega)
  rw [mustReadFloat64, h, List.take_left' ha, List.drop_left' ha]

/-- C17: for every four 8-byte blocks `a`, `b`, `c`, `d`, `Read` on
`0x40 || a || b || c || d` returns, with a nil error, the bounds message whose
`Left`, `Top`, `Right` and `Bottom` are the floats with the little-endian bits
of `a`, `b`, `c` and `d`. -/
theorem C17_bounds_order (a b c d : List Nat)
    (ha : a.length = 8) (hb : b.length = 8) (hc : c.length = 8) (hd : d.length = 8) :
    Read (0x40 :: (a ++ (b ++ (c ++ d))))
      = (Message.MessageCanvasSize
          { Left := leUint64 a, Top := leUint64 b, Right := leUint64 c,
            Bottom := leUint64 d }, none) := by
  have h4 := mustReadFloat64_block d [] hd
  rw [List.append_nil] at h4
  simp only [Read, readFrom, readSwitch, mustReadByte, bind, Except.bind, pure, Except.pure,
    mustReadFloat64_block a _ ha, mustReadFloat64_block b _ hb,
    mustReadFloat64_block c _ hc, h4]
  simp

/-- C17 on the blocks holding the floats 1.0, 2.0, 3.0 and 4.0. -/
theorem C17_bounds_order_witness :
    Read (0x40 :: ([0, 0, 0, 0, 0, 0, 0xF0, 0x3F] ++ ([0, 0, 0, 0, 0, 0, 0, 0x40]
        ++ ([0, 0, 0, 0, 0, 0, 8, 0x40] ++ [0, 0, 0, 0, 0, 0, 0x10, 0x40]))))
      = (Message.MessageCanvasSize
          { Left := leUint64 [0, 0, 0, 0, 0, 0, 0xF0, 0x3F],
            Top := leUint64 [0, 0, 0, 0, 0, 0, 0, 0x40],
            Right := leUint64 [0, 0, 0, 0, 0, 0, 8, 0x40],
            Bottom := leUint64 [0, 0, 0, 0, 0, 0, 0x10, 0x40] }, none)
    ∧ leUint64 [0, 0, 0, 0, 0, 0, 0xF0, 0x3F] = 0x3FF0000000000000 :=
  ⟨C17_bounds_order _ _ _ _ rfl rfl rfl rfl, by decide⟩

/-! ## Theorems: the other events -/

/-- C16: applying an identity-assignment event for `i` adds `i` to the
owned-identity set and leaves the cell map, the leaderboard, the bounds and
the last commanded target as they were; applying the same event again changes
nothing. -/
theorem C16_identity_assignment (g : Game) (i : Nat) :
    (applyMessage g (Message.MessageMyID i)).MyIDs = insert i g.MyIDs
    ∧ (applyMessage g (Message.MessageMyID i)).Cells = g.Cells
    ∧ (applyMessage g (Message.MessageMyID i)).Leaderboard = g.Leaderboard
    ∧ (applyMessage g (Message.MessageMyID i)).Board = g.Board
    ∧ (applyMessage g (Message.MessageMyID i)).targetX = g.targetX
    ∧ (applyMessage g (Message.MessageMyID i)).targetY = g.targetY
    ∧ applyMessage (applyMessage g (Message.MessageMyID i)) (Message.MessageMyID i)
        = applyMessage g (Message.MessageMyID i) := by
  refine ⟨rfl, rfl, rfl, rfl, rfl, rfl, ?_⟩
  simp only [applyMessage, Finset.insert_idem]

/-- C18 (counterexample): no reading of the world state gives back the scores
of the team-leaderboard event that was applied last: the events with scores
(1, 2, 3) and (4, 5, 6) leave the same state behind. -/
theorem C18_team_scores_not_stored :
    ¬ ∃ teamScores : Game → Nat × Nat × Nat,
        ∀ (g : Game) (red green blue : Nat),
          teamScores (applyMessage g (Message.MessageTeamLeaderboard red green blue))
            = (red, green, blue) := by
  rintro ⟨teamScores, h⟩
  have h1 := h NewGame 1 2 3
  have h2 := h NewGame 4 5 6
  have e : applyMessage NewGame (Message.MessageTeamLeaderboard 1 2 3)
      = applyMessage NewGame (Message.MessageTeamLeaderboard 4 5 6) := rfl
  rw [e, h2] at h1
  exact absurd h1 (by decide)

/-- C18 (amended): applying a team-leaderboard event leaves the world state
unchanged; `Game` has no field for team scores and `RunOnce` has no case for
`*MessageTeamLeaderboard`, so the event reaches the `default` branch. -/
theorem C18_team_leaderboard_ignored (g : Game) (red green blue : Nat) :
    applyMessage g (Message.MessageTeamLeaderboard red green blue) = g := rfl

/-- C19: in every world state reachable from `NewGame` by applying decoded
messages, every entry of the cell map is stored under its own id and its
colour has alpha 255. -/
theorem C19_cells_keyed_by_id (g : Game) (hg : Reachable g) (k : Nat) (c : Cell)
    (hc : g.Cells k = some c) : c.ID = k ∧ c.Color.A = 255 :=
  hg.cellsOK k c hc

/-- C19 on the state that has seen cell 1 once. -/
theorem C19_cells_keyed_by_id_witness :
    Reachable seenOne
    ∧ ∃ c : Cell, seenOne.Cells 1 = some c ∧ c.ID = 1 ∧ c.Color.A = 255 :=
  ⟨Reachable.step _ _ Reachable.init, _, by decide,
    C19_cells_keyed_by_id seenOne (Reachable.step _ _ Reachable.init) 1
      { ID := 1, Name := [65], Position := { X := 10, Y := 10 },
        Heading := Heading.zero, Size := 50,
        Color := { R := 1, G := 2, B := 3, A := 255 }, IsVirus := false }
      (by decide)⟩

/-! ## Theorems: the target command -/

theorem float64Eq_self (a : Nat) (h : isNaN64 a = false) : float64Eq a a = true := by
  simp [float64Eq, h]

theorem highBit_spec (m : Nat) (h0 : m ≠ 0) :
    ∀ k, m < 2 ^ (k + 1) →
      highBit m k ≤ k ∧ 2 ^ highBit m k ≤ m ∧ m < 2 ^ (highBit m k + 1) := by
  intro k
  induction k with
  | zero =>
    intro h
    simp only [highBit]
    omega
  | succ k ih =>
    intro h
    unfold highBit
    split
    · rename_i hle
      exact ⟨le_refl _, hle, h⟩
    · rename_i hlt
      obtain ⟨h1, h2, h3⟩ := ih (by omega)
      exact ⟨by omega, h2, h3⟩

theorem subnormal_mantissa_lt (m : Nat) (h0 : m ≠ 0) (h : m < 2 ^ 23) :
    (m - 2 ^ highBit m 22) * 2 ^ (52 - highBit m 22) < 2 ^ 52 := by
  obtain ⟨hk, hle, hlt⟩ := highBit_spec m h0 22 h
  have h1 : m - 2 ^ highBit m 22 < 2 ^ highBit m 22 := by
    rw [pow_succ] at hlt
    omega
  calc (m - 2 ^ highBit m 22) * 2 ^ (52 - highBit m 22)
      < 2 ^ highBit m 22 * 2 ^ (52 - highBit m 22) :=
        Nat.mul_lt_mul_of_pos_right h1 (by positivity)
    _ = 2 ^ 52 := by
        rw [← pow_add]
        congr 1
        omega

theorem isNaN64_float64OfFloat32 (b : Nat) :
    isNaN64 (float64OfFloat32 b) = isNaN32 b := by
  have hs : b / 2 ^ 31 % 2 < 2 := Nat.mod_lt _ (by norm_num)
  have hm : b % 2 ^ 23 < 2 ^ 23 := Nat.mod_lt _ (by positivity)
  have he : b / 2 ^ 23 % 2 ^ 8 < 2 ^ 8 := Nat.mod_lt _ (by positivity)
  unfold float64OfFloat32 isNaN32
  simp only
  generalize b / 2 ^ 31 % 2 = s at hs
  generalize b % 2 ^ 23 = m at hm
  generalize b / 2 ^ 23 % 2 ^ 8 = e at he
  by_cases h255 : e = 255
  · subst h255
    by_cases hm0 : m = 0
    · subst hm0
      have : isNaN64 (s * 2 ^ 63 + 2047 * 2 ^ 52 + 0) = false := by
        simp only [isNaN64, Bool.and_eq_false_iff, bne_eq_false_iff_eq, beq_eq_false_iff_ne]
        right
        omega
      simpa using this
    · have hq1 : m ||| 2 ^ 22 < 2 ^ 23 := Nat.or_lt_two_pow hm (by norm_num)
      have hq2 : 2 ^ 22 ≤ m ||| 2 ^ 22 :=
        Nat.testBit_implies_ge (by rw [Nat.testBit_or, Nat.testBit_two_pow_self, Bool.or_true])
      have hb : (m != 0) = true := by simp [hm0]
      generalize m ||| 2 ^ 22 = q at hq1 hq2
      have : isNaN64 (s * 2 ^ 63 + 2047 * 2 ^ 52 + q * 2 ^ 29) = true := by
        simp only [isNaN64, Bool.and_eq_true, beq_iff_eq, bne_iff_ne, ne_eq]
        constructor <;> omega
      simp only [beq_self_eq_true, Bool.true_and, if_true, if_neg hm0, hb]
      exact this
  · have hR : (e == 255 && m != 0) = false := by simp [h255]
    rw [hR, if_neg h255]
    by_cases he0 : e = 0
    · rw [if_pos he0]
      by_cases hm0 : m = 0
      · rw [if_pos hm0]
        simp only [isNaN64, Bool.and_eq_false_iff, bne_eq_false_iff_eq, beq_eq_false_iff_ne]
        left
        omega
      · rw [if_neg hm0]
        have hM := subnormal_mantissa_lt m hm0 hm
        have hk := (highBit_spec m hm0 22 hm).1
        generalize (m - 2 ^ highBit m 22) * 2 ^ (52 - highBit m 22) = M at hM
        generalize highBit m 22 = k at hk
        simp only [isNaN64, Bool.and_eq_false_iff, bne_eq_false_iff_eq, beq_eq_false_iff_ne]
        left
        omega
    · rw [if_neg he0]
      simp only [isNaN64, Bool.and_eq_false_iff, bne_eq_false_iff_eq, beq_eq_false_iff_ne]
      left
      omega

theorem float64OfFloat32_examples :
    float64OfFloat32 0x3F800000 = 0x3FF0000000000000
    ∧ float64OfFloat32 0xC0A00000 = 0xC014000000000000
    ∧ float64OfFloat32 0x00000001 = 0x36A0000000000000
    ∧ float64OfFloat32 0x00400000 = 0x3800000000000000
    ∧ float64OfFloat32 0x7F800000 = 0x7FF0000000000000
    ∧ float64OfFloat32 0x7FC00000 = 0x7FF8000000000000
    ∧ float64OfFloat32 0x80000000 = 0x8000000000000000 :=
  ⟨by decide, by decide, by decide, by decide, by decide, by decide, by decide⟩

theorem SetTargetPos_again (g : Game) (x_ y_ : Nat)
    (hx : isNaN32 x_ = false) (hy : isNaN32 y_ = false) :
    SetTargetPos (SetTargetPos g x_ y_).1 x_ y_ = ((SetTargetPos g x_ y_).1, []) := by
  have ex := float64Eq_self _ ((isNaN64_float64OfFloat32 x_).trans hx)
  have ey := float64Eq_self _ ((isNaN64_float64OfFloat32 y_).trans hy)
  by_cases h : (float64Eq (float64OfFloat32 x_) g.targetX
      && float64Eq (float64OfFloat32 y_) g.targetY) = true
  · have e1 : SetTargetPos g x_ y_ = (g, []) := by
      simp only [SetTargetPos, h, if_true]
    rw [e1]
    exact e1
  · have e1 : SetTargetPos g x_ y_
        = ({ g with targetX := float64OfFloat32 x_, targetY := float64OfFloat32 y_ },
            [SendTarget (float64OfFloat32 x_) (float64OfFloat32 y_)]) := by
      simp only [SetTargetPos, h, if_false]
      rfl
    rw [e1]
    simp only [SetTargetPos, ex, ey, Bool.and_self, if_true]

/-- C13 (counterexample): on a new game, whose last commanded target is
(0, 0), two calls `SetTargetPos(0, 0)` send no message at all; and two calls
with a NaN coordinate send two messages. -/
theorem C13_two_calls_not_one_message :
    (sentByTwoCalls NewGame 0 0).length = 0
    ∧ (sentByTwoCalls NewGame 0x7FC00000 0).length = 2 := by
  decide

/-- C13 (amended): for every session state and every target `(x, y)` with
neither coordinate a NaN, the second of two calls `SetTargetPos(x, y)` in a
row sends nothing and leaves the state of the first call, and the first call
sends exactly one message, the target command for `(x, y)`, when `(x, y)`
differs from the last commanded target, and no message when it equals it. -/
theorem C13_second_call_silent (g : Game) (x_ y_ : Nat)
    (hx : isNaN32 x_ = false) (hy : isNaN32 y_ = false) :
    SetTargetPos (SetTargetPos g x_ y_).1 x_ y_ = ((SetTargetPos g x_ y_).1, [])
    ∧ (SetTargetPos g x_ y_).2
        = (if float64Eq (float64OfFloat32 x_) g.targetX
              && float64Eq (float64OfFloat32 y_) g.targetY then []
           else [SendTarget (float64OfFloat32 x_) (float64OfFloat32 y_)])
    ∧ (sentByTwoCalls g x_ y_).length
        = (if float64Eq (float64OfFloat32 x_) g.targetX
              && float64Eq (float64OfFloat32 y_) g.targetY then 0 else 1) := by
  have h2 := SetTargetPos_again g x_ y_ hx hy
  have h1 : (SetTargetPos g x_ y_).2
      = (if float64Eq (float64OfFloat32 x_) g.targetX
            && float64Eq (float64OfFloat32 y_) g.targetY then []
         else [SendTarget (float64OfFloat32 x_) (float64OfFloat32 y_)]) := by
    unfold SetTargetPos
    simp only
    split <;> rfl
  refine ⟨h2, h1, ?_⟩
  rw [sentByTwoCalls, h2, h1]
  split <;> rfl

/-- C13 (amended) on a new game and the target (1.0, -5.0): the first call
sends the one message `0x10 || f64le(1.0) || f64le(-5.0) || 0 0 0 0`, the
second call none. -/
theorem C13_second_call_silent_witness :
    (isNaN32 0x3F800000 = false ∧ isNaN32 0xC0A00000 = false)
    ∧ (SetTargetPos NewGame 0x3F800000 0xC0A00000).2
        = [[0x10, 0, 0, 0, 0, 0, 0, 0xF0, 0x3F, 0, 0, 0, 0, 0, 0, 0x14, 0xC0, 0, 0, 0, 0]]
    ∧ (SetTargetPos (SetTargetPos NewGame 0x3F800000 0xC0A00000).1 0x3F800000 0xC0A00000).2
        = []
    ∧ (sentByTwoCalls NewGame 0x3F800000 0xC0A00000).length = 1 :=
  ⟨⟨by decide, by decide⟩, by decide,
    congrArg Prod.snd (C13_second_call_silent NewGame 0x3F800000 0xC0A00000
      (by decide) (by decide)).1,
    by decide⟩

/-! ## Theorems: UTF-8, UTF-16 and the nickname command -/

theorem lor_eq_add (a b i : Nat) (ha : a % 2 ^ i = 0) (hb : b < 2 ^ i) : a ||| b = a + b := by
  have h := Nat.mul_add_lt_is_or hb (a / 2 ^ i)
  have e : 2 ^ i * (a / 2 ^ i) = a := by
    have := Nat.div_add_mod a (2 ^ i)
    omega
  rw [e] at h
  exact h.symm

theorem land_0x3F (x : Nat) : x &&& 0x3F = x % 64 := Nat.and_pow_two_sub_one_eq_mod x 6

theorem land_0x1F (x : Nat) : x &&& 0x1F = x % 32 := Nat.and_pow_two_sub_one_eq_mod x 5

theorem land_0x0F (x : Nat) : x &&& 0x0F = x % 16 := Nat.and_pow_two_sub_one_eq_mod x 4

theorem land_0x07 (x : Nat) : x &&& 0x07 = x % 8 := Nat.and_pow_two_sub_one_eq_mod x 3

theorem land_0x3ff (x : Nat) : x &&& 0x3ff = x % 1024 := Nat.and_pow_two_sub_one_eq_mod x 10

theorem rune2_eq (b0 b1 : Nat) :
    ((b0 &&& 0x1F) <<< 6) ||| (b1 &&& 0x3F) = b0 % 32 * 64 + b1 % 64 := by
  rw [land_0x1F, land_0x3F, Nat.shiftLeft_eq]
  exact lor_eq_add _ _ 6 (by omega) (by omega)

theorem rune3_eq (b0 b1 b2 : Nat) :
    ((b0 &&& 0x0F) <<< 12) ||| ((b1 &&& 0x3F) <<< 6) ||| (b2 &&& 0x3F)
      = b0 % 16 * 4096 + b1 % 64 * 64 + b2 % 64 := by
  rw [land_0x0F, land_0x3F, land_0x3F, Nat.shiftLeft_eq, Nat.shiftLeft_eq]
  rw [lor_eq_add (b0 % 16 * 2 ^ 12) (b1 % 64 * 2 ^ 6) 12 (by omega) (by omega)]
  exact lor_eq_add _ _ 6 (by omega) (by omega)

theorem rune4_eq (b0 b1 b2 b3 : Nat) :
    ((b0 &&& 0x07) <<< 18) ||| ((b1 &&& 0x3F) <<< 12) ||| ((b2 &&& 0x3F) <<< 6)
        ||| (b3 &&& 0x3F)
      = b0 % 8 * 262144 + b1 % 64 * 4096 + b2 % 64 * 64 + b3 % 64 := by
  rw [land_0x07, land_0x3F, land_0x3F, land_0x3F, Nat.shiftLeft_eq, Nat.shiftLeft_eq,
    Nat.shiftLeft_eq]
  rw [lor_eq_add (b0 % 8 * 2 ^ 18) (b1 % 64 * 2 ^ 12) 18 (by omega) (by omega)]
  rw [lor_eq_add (b0 % 8 * 2 ^ 18 + b1 % 64 * 2 ^ 12) (b2 % 64 * 2 ^ 6) 12 (by omega)
    (by omega)]
  exact lor_eq_add _ _ 6 (by omega) (by omega)

/-- The shapes of a result of `decoderune` on a non-empty string: the width
is between 1 and the length of the string, and a rune of width below 4 is
below U+10000. -/
theorem decoderune_width (s : List Nat) (hs : s ≠ []) :
    1 ≤ (decoderune s).2 ∧ (decoderune s).2 ≤ s.length
      ∧ ((decoderune s).2 < 4 → (decoderune s).1 < 0x10000
          ∧ ¬ (0xd800 ≤ (decoderune s).1 ∧ (decoderune s).1 < 0xe000))
      ∧ (decoderune s).1 ≤ 0x10FFFF := by
  cases s with
  | nil => exact absurd rfl hs
  | cons b0 t =>
    unfold decoderune
    simp only
    split
    · simp only [List.length_cons]
      omega
    split
    · cases t with
      | nil => simp
      | cons b1 t1 =>
        simp only [rune2_eq]
        split
        · split
          · simp only [List.length_cons]
            omega
          · simp
        · simp
    split
    · match t with
      | [] => simp
      | [_] => simp
      | b1 :: b2 :: t2 =>
        simp only [rune3_eq]
        split
        · split
          · simp only [List.length_cons]
            omega
          · simp
        · simp
    split
    · match t with
      | [] => simp
      | [_] => simp
      | [_, _] => simp
      | b1 :: b2 :: b3 :: t3 =>
        simp only [rune4_eq]
        split
        · split
          · simp only [List.length_cons]
            omega
          · simp
        · simp
    · simp

theorem utf16EncodeRune_length (v : Nat) :
    (utf16EncodeRune v).length ≤ 2
      ∧ (v < 0x10000 → (utf16EncodeRune v).length = 1) := by
  unfold utf16EncodeRune
  split
  · simp
  · split
    · simp
    · constructor
      · simp
      · intro h
        omega

theorem units_le_width (s : List Nat) (hs : s ≠ []) :
    (utf16EncodeRune (decoderune s).1).length ≤ (decoderune s).2 := by
  obtain ⟨h1, _, h3, _⟩ := decoderune_width s hs
  obtain ⟨k2, k1⟩ := utf16EncodeRune_length (decoderune s).1
  by_cases hw : (decoderune s).2 < 4
  · rw [k1 (h3 hw).1]
    exact h1
  · omega

theorem stringToRunesAux_units :
    ∀ (fuel : Nat) (s : List Nat), (utf16Encode (stringToRunesAux fuel s)).length ≤ s.length := by
  intro fuel
  induction fuel with
  | zero => intro s; simp [stringToRunesAux, utf16Encode]
  | succ fuel ih =>
    intro s
    cases s with
    | nil => simp [stringToRunesAux, utf16Encode]
    | cons b t =>
      have hw := decoderune_width (b :: t) (by simp)
      have hu := units_le_width (b :: t) (by simp)
      have hrest := ih ((b :: t).drop (decoderune (b :: t)).2)
      simp only [stringToRunesAux, utf16Encode, List.map_cons, List.flatten_cons,
        List.length_append]
      simp only [utf16Encode, List.length_drop] at hrest
      omega

theorem stringToRunesAux_fuel :
    ∀ (f1 f2 : Nat) (s : List Nat), s.length ≤ f1 → s.length ≤ f2 →
      stringToRunesAux f1 s = stringToRunesAux f2 s := by
  intro f1
  induction f1 with
  | zero =>
    intro f2 s h1 _
    have : s = [] := List.eq_nil_of_length_eq_zero (by omega)
    subst this
    cases f2 <;> rfl
  | succ f1 ih =>
    intro f2 s h1 h2
    cases s with
    | nil => cases f2 <;> rfl
    | cons b t =>
      obtain ⟨k, rfl⟩ : ∃ k, f2 = k + 1 := ⟨f2 - 1, by simp at h2; omega⟩
      have hw := decoderune_width (b :: t) (by simp)
      simp only [stringToRunesAux]
      rw [ih k _ (by simp only [List.length_drop, List.length_cons] at *; omega)
        (by simp only [List.length_drop, List.length_cons] at *; omega)]

theorem PutUint16_append (done todo : List Nat) (t0 t1 v : Nat) :
    PutUint16 (done ++ t0 :: t1 :: todo) done.length v = some (done ++ (u16le v ++ todo)) := by
  have hlen : done.length + 2 ≤ (done ++ t0 :: t1 :: todo).length := by simp
  rw [PutUint16, if_pos hlen, Nat.shiftRight_eq_div_pow]
  simp [List.set_append, u16le]

theorem encodeUnits_append (units : List Nat) :
    ∀ (done todo : List Nat) (i : Nat), done.length = 2 * i →
      2 * units.length ≤ todo.length →
      encodeUnits (done ++ todo) i units
        = some (done ++ ((units.map u16le).flatten ++ todo.drop (2 * units.length))) := by
  induction units with
  | nil => intro done todo i _ _; simp [encodeUnits]
  | cons u us ih =>
    intro done todo i hd ht
    match todo, ht with
    | t0 :: t1 :: todo1, ht =>
      have hp := PutUint16_append done todo1 t0 t1 u
      rw [hd] at hp
      simp only [encodeUnits, hp]
      have hlen : (done ++ u16le u).length = 2 * (i + 1) := by
        simp [u16le, hd]
        omega
      have ih1 := ih (done ++ u16le u) todo1 (i + 1) hlen
        (by simp only [List.length_cons] at ht; omega)
      rw [List.append_assoc] at ih1
      rw [ih1]
      simp [List.append_assoc, Nat.mul_add]

theorem encodeString_zeroed (n : Nat) (str : List Nat)
    (h : (utf16Encode (stringToRunes str)).length ≤ n) :
    encodeString (List.replicate (2 * n) 0) str
      = some (((utf16Encode (stringToRunes str)).map u16le).flatten
          ++ List.replicate (2 * (n - (utf16Encode (stringToRunes str)).length)) 0) := by
  have h1 := encodeUnits_append (utf16Encode (stringToRunes str)) [] (List.replicate (2 * n) 0) 0
    rfl (by simp only [List.length_replicate]; omega)
  simp only [List.nil_append] at h1
  rw [encodeString, h1, List.drop_replicate, Nat.mul_sub]

theorem SendNickname_eq (nickname : List Nat) :
    SendNickname nickname
      = some (0 :: (((utf16Encode (stringToRunes nickname)).map u16le).flatten
          ++ List.replicate
              (2 * (nickname.length - (utf16Encode (stringToRunes nickname)).length)) 0)) := by
  have hle := stringToRunesAux_units nickname.length nickname
  have hdrop : (List.replicate (1 + 2 * nickname.length) 0).drop 1
      = List.replicate (2 * nickname.length) 0 := by
    rw [List.drop_replicate]
    congr 1
    omega
  have htake : (List.replicate (1 + 2 * nickname.length) 0).take 1 = [0] := by
    rw [List.take_replicate]
    have : min 1 (1 + 2 * nickname.length) = 1 := by omega
    rw [this]
    rfl
  simp only [SendNickname, hdrop, htake, encodeString_zeroed nickname.length nickname hle]
  rfl

/-- C20: for every nickname string `s` (any bytes, also ill-formed UTF-8 and
characters outside the Basic Multilingual Plane) the number of UTF-16 code
units of `s` is at most the byte length of `s`, and `SendNickname` does not
panic: it sends a message of `1 + 2*len(s)` bytes. -/
theorem C20_nickname_fits (s : List Nat) :
    (utf16Encode (stringToRunes s)).length ≤ s.length
    ∧ ∃ msg : List Nat, SendNickname s = some msg ∧ msg.length = 1 + 2 * s.length := by
  have hle := stringToRunesAux_units s.length s
  refine ⟨hle, _, SendNickname_eq s, ?_⟩
  have hle1 : (utf16Encode (stringToRunes s)).length ≤ s.length := hle
  have hfl : ∀ l : List Nat, ((l.map u16le).flatten).length = 2 * l.length := by
    intro l
    induction l with
    | nil => rfl
    | cons a as ih =>
      simp only [List.map_cons, List.flatten_cons, List.length_append, ih, List.length_cons,
        List.length_nil, u16le]
      omega
  simp only [List.length_cons, List.length_append, List.length_replicate, hfl]
  omega

theorem encoderune_1 (r : Nat) (h : r ≤ 0x7F) : encoderune r = [r] := by
  rw [encoderune, if_pos h, Nat.mod_eq_of_lt (by omega)]

theorem encoderune_2 (r : Nat) (h1 : 0x7F < r) (h2 : r ≤ 0x7FF) :
    encoderune r = [0xC0 + r / 64, 0x80 + r % 64] := by
  rw [encoderune, if_neg (by omega), if_pos h2, Nat.shiftRight_eq_div_pow, land_0x3F,
    lor_eq_add 0xC0 _ 6 (by norm_num) (by omega),
    lor_eq_add 0x80 _ 6 (by norm_num) (by omega)]
  simp only [Nat.reducePow, List.cons.injEq, and_true]
  omega

theorem encoderune_3 (r : Nat) (h1 : 0x7FF < r) (h2 : r ≤ 0xFFFF)
    (hs : ¬ (0xD800 ≤ r ∧ r ≤ 0xDFFF)) :
    encoderune r = [0xE0 + r / 4096, 0x80 + r / 64 % 64, 0x80 + r % 64] := by
  rw [encoderune, if_neg (by omega), if_neg (by omega), if_neg (by omega), if_pos h2,
    Nat.shiftRight_eq_div_pow, Nat.shiftRight_eq_div_pow, land_0x3F, land_0x3F,
    lor_eq_add 0xE0 _ 5 (by norm_num) (by omega),
    lor_eq_add 0x80 _ 6 (by norm_num) (by omega),
    lor_eq_add 0x80 _ 6 (by norm_num) (by omega)]
  simp only [Nat.reducePow, List.cons.injEq, and_true]
  omega

theorem encoderune_4 (r : Nat) (h1 : 0xFFFF < r) (h2 : r ≤ 0x10FFFF) :
    encoderune r
      = [0xF0 + r / 262144, 0x80 + r / 4096 % 64, 0x80 + r / 64 % 64, 0x80 + r % 64] := by
  rw [encoderune, if_neg (by omega), if_neg (by omega), if_neg (by omega), if_neg (by omega),
    Nat.shiftRight_eq_div_pow, Nat.shiftRight_eq_div_pow, Nat.shiftRight_eq_div_pow,
    land_0x3F, land_0x3F, land_0x3F,
    lor_eq_add 0xF0 _ 3 (by norm_num) (by omega),
    lor_eq_add 0x80 _ 6 (by norm_num) (by omega),
    lor_eq_add 0x80 _ 6 (by norm_num) (by omega),
    lor_eq_add 0x80 _ 6 (by norm_num) (by omega)]
  simp only [Nat.reducePow, List.cons.injEq, and_true]
  omega

/-- Decoding the UTF-8 bytes of a scalar value (at most U+10FFFF, no
surrogate) gives the value back, with the number of its bytes as the width. -/
theorem decoderune_encoderune (r : Nat) (h : r ≤ 0x10FFFF)
    (hs : ¬ (0xD800 ≤ r ∧ r ≤ 0xDFFF)) (rest : List Nat) :
    decoderune (encoderune r ++ rest) = (r, (encoderune r).length) := by
  by_cases h1 : r ≤ 0x7F
  · rw [encoderune_1 r h1]
    simp only [decoderune, List.cons_append, List.nil_append, List.length_singleton]
    rw [if_pos (by omega)]
  by_cases h2 : r ≤ 0x7FF
  · rw [encoderune_2 r (by omega) h2]
    simp only [decoderune, List.cons_append, List.nil_append, rune2_eq, List.length_cons,
      List.length_nil]
    rw [if_neg (by omega), if_pos (by omega), if_pos (by omega), if_pos (by omega)]
    congr 1
    omega
  by_cases h3 : r ≤ 0xFFFF
  · rw [encoderune_3 r (by omega) h3 hs]
    simp only [decoderune, List.cons_append, List.nil_append, rune3_eq, List.length_cons,
      List.length_nil]
    have e : (0xE0 + r / 4096) % 16 * 4096 + (0x80 + r / 64 % 64) % 64 * 64
        + (0x80 + r % 64) % 64 = r := by omega
    rw [e, if_neg (by omega), if_neg (by omega), if_pos (by omega), if_pos (by omega),
      if_pos (by omega)]
  · rw [encoderune_4 r (by omega) h]
    simp only [decoderune, List.cons_append, List.nil_append, rune4_eq, List.length_cons,
      List.length_nil]
    have e : (0xF0 + r / 262144) % 8 * 262144 + (0x80 + r / 4096 % 64) % 64 * 4096
        + (0x80 + r / 64 % 64) % 64 * 64 + (0x80 + r % 64) % 64 = r := by omega
    rw [e, if_neg (by omega), if_neg (by omega), if_neg (by omega), if_pos (by omega),
      if_pos (by omega), if_pos (by omega)]

theorem encoderune_length_pos (r : Nat) : 1 ≤ (encoderune r).length := by
  unfold encoderune
  split
  · simp
  split
  · simp
  split
  · simp
  split <;> simp

theorem stringToRunesAux_stringOfRunes (rs : List Nat)
    (h : ∀ r ∈ rs, r ≤ 0x10FFFF ∧ ¬ (0xD800 ≤ r ∧ r ≤ 0xDFFF)) :
    ∀ fuel, (stringOfRunes rs).length ≤ fuel →
      stringToRunesAux fuel (stringOfRunes rs) = rs := by
  induction rs with
  | nil =>
    intro fuel _
    cases fuel <;> rfl
  | cons r rs ih =>
    intro fuel hf
    have hr := h r (List.mem_cons_self _ _)
    have hpos := encoderune_length_pos r
    have hs : stringOfRunes (r :: rs) = encoderune r ++ stringOfRunes rs := by
      simp [stringOfRunes]
    rw [hs] at hf ⊢
    rw [List.length_append] at hf
    obtain ⟨k, rfl⟩ : ∃ k, fuel = k + 1 := ⟨fuel - 1, by omega⟩
    have hdec := decoderune_encoderune r hr.1 hr.2 (stringOfRunes rs)
    obtain ⟨b, t, hbt⟩ : ∃ b t, encoderune r ++ stringOfRunes rs = b :: t := by
      cases hcase : encoderune r ++ stringOfRunes rs with
      | nil =>
        have := congrArg List.length hcase
        simp only [List.length_append, List.length_nil] at this
        omega
      | cons b t => exact ⟨b, t, rfl⟩
    rw [hbt] at hdec ⊢
    simp only [stringToRunesAux, hdec]
    rw [← hbt, List.drop_left, ih (fun x hx => h x (List.mem_cons_of_mem _ hx)) k (by omega)]

theorem stringToRunes_stringOfRunes (rs : List Nat)
    (h : ∀ r ∈ rs, r ≤ 0x10FFFF ∧ ¬ (0xD800 ≤ r ∧ r ≤ 0xDFFF)) :
    stringToRunes (stringOfRunes rs) = rs :=
  stringToRunesAux_stringOfRunes rs h _ (le_refl _)

theorem utf16Encode_BMP (rs : List Nat) (h : ∀ r ∈ rs, BMPScalar r) :
    utf16Encode rs = rs := by
  induction rs with
  | nil => rfl
  | cons r rs ih =>
    obtain ⟨h1, h2⟩ := h r (List.mem_cons_self _ _)
    have e : utf16EncodeRune r = [r] := by
      rw [utf16EncodeRune, if_neg (by omega), if_pos h1]
    have ih1 : (rs.map utf16EncodeRune).flatten = rs :=
      ih (fun x hx => h x (List.mem_cons_of_mem _ hx))
    simp only [utf16Encode, List.map_cons, List.flatten_cons, e, ih1, List.singleton_append]

theorem utf16Decode_BMP (rs : List Nat) (h : ∀ r ∈ rs, BMPScalar r) :
    utf16Decode rs = rs := by
  induction rs with
  | nil => rfl
  | cons r rs ih =>
    obtain ⟨h1, h2⟩ := h r (List.mem_cons_self _ _)
    have ih1 := ih (fun x hx => h x (List.mem_cons_of_mem _ hx))
    have hc : r < 0xd800 ∨ 0xe000 ≤ r := by omega
    cases rs with
    | nil => simp [utf16Decode, hc]
    | cons r2 rs2 =>
      rw [utf16Decode, if_pos hc, ih1]

theorem encodeToBytes_BMP (rs : List Nat) (h : ∀ r ∈ rs, BMPScalar r) :
    encodeToBytes (stringOfRunes rs) = some ((rs.map u16le).flatten) := by
  have hv : ∀ r ∈ rs, r ≤ 0x10FFFF ∧ ¬ (0xD800 ≤ r ∧ r ≤ 0xDFFF) := by
    intro r hr
    obtain ⟨h1, h2⟩ := h r hr
    exact ⟨by omega, h2⟩
  have hu : utf16Encode (stringToRunes (stringOfRunes rs)) = rs := by
    rw [stringToRunes_stringOfRunes rs hv, utf16Encode_BMP rs h]
  rw [encodeToBytes, encodeString_zeroed _ _ (le_refl _), hu]
  simp

/-- C14 (counterexample): the string "A\x00B" holds three code points of the
Basic Multilingual Plane (U+0041, U+0000, U+0042); encoded, terminated and
read back it gives the string "A", with four bytes left unread: the zero unit
of U+0000 ends the read. -/
theorem C14_round_trip_fails_on_NUL :
    ¬ (∀ rs : List Nat, (∀ r ∈ rs, BMPScalar r) →
        roundTrip (stringOfRunes rs) = some (.ok (stringOfRunes rs, []))) := by
  intro hall
  have h := hall [0x41, 0, 0x42] (by decide)
  have e : roundTrip (stringOfRunes [0x41, 0, 0x42]) = some (.ok ([0x41], [0x42, 0, 0, 0])) :=
    rfl
  rw [e] at h
  injection h with h
  injection h with h
  exact absurd (congrArg Prod.snd h) (by decide)

/-- C14 (amended): for every string `s` of code points of the Basic
Multilingual Plane none of which is U+0000, `encodeString` gives the
UTF-16LE bytes of the code points, reading these bytes followed by a zero code
unit with `mustReadString` returns exactly `s` and consumes all bytes, and
encoding the string read back gives the same bytes. -/
theorem C14_round_trip_BMP (rs : List Nat) (h : ∀ r ∈ rs, BMPScalar r ∧ r ≠ 0) :
    roundTrip (stringOfRunes rs) = some (.ok (stringOfRunes rs, []))
    ∧ encodeToBytes (stringOfRunes rs) = some ((rs.map u16le).flatten)
    ∧ ∀ bytes back rest, encodeToBytes (stringOfRunes rs) = some bytes →
        mustReadString (bytes ++ [0, 0]) = .ok (back, rest) →
        encodeToBytes back = some bytes := by
  have hb : ∀ r ∈ rs, BMPScalar r := fun r hr => (h r hr).1
  have henc := encodeToBytes_BMP rs hb
  have hunits : ∀ u ∈ rs, u ≠ 0 ∧ u < 2 ^ 16 := by
    intro u hu
    obtain ⟨⟨h1, _⟩, h0⟩ := h u hu
    exact ⟨h0, by omega⟩
  have hread := mustReadString_units rs hunits []
  rw [utf16Decode_BMP rs hb] at hread
  have hread1 : mustReadString ((rs.map u16le).flatten ++ [0, 0])
      = .ok (stringOfRunes rs, []) := hread
  refine ⟨?_, henc, ?_⟩
  · simp only [roundTrip, henc, hread1]
  · intro bytes back rest hbytes hback
    rw [henc] at hbytes
    injection hbytes with hbytes
    subst hbytes
    rw [hread1] at hback
    injection hback with hback
    injection hback with hb1 hb2
    rw [← hb1]
    exact henc

/-- C14 (amended) on the string "Aé€". -/
theorem C14_round_trip_BMP_witness :
    stringOfRunes [0x41, 0xe9, 0x20ac] = [0x41, 0xC3, 0xA9, 0xE2, 0x82, 0xAC]
    ∧ roundTrip (stringOfRunes [0x41, 0xe9, 0x20ac])
        = some (.ok (stringOfRunes [0x41, 0xe9, 0x20ac], []))
    ∧ encodeToBytes (stringOfRunes [0x41, 0xe9, 0x20ac])
        = some [0x41, 0, 0xe9, 0, 0xac, 0x20] :=
  ⟨by decide,
    (C14_round_trip_BMP [0x41, 0xe9, 0x20ac] (by decide)).1,
    (C14_round_trip_BMP [0x41, 0xe9, 0x20ac] (by decide)).2.1⟩

/-- C15 (failing input): for the nickname "é" (UTF-8 bytes C3 A9, one UTF-16
code unit 0x00E9) `SendNickname` sends the five bytes 00 E9 00 00 00: the
message is sized by the byte length of the nickname, `1 + 2*len(nickname)`,
and the bytes after the code units stay zero. -/
theorem C15_nickname_zero_padded :
    SendNickname [0xC3, 0xA9] = some [0x00, 0xE9, 0x00, 0x00, 0x00]
    ∧ utf16Encode (stringToRunes [0xC3, 0xA9]) = [0xE9] :=
  ⟨by decide, by decide⟩

/-! ## Theorems: decoding an update message -/

theorem encoderune_eq_utf8Of (r : Nat) (h : ScalarValue r) : encoderune r = utf8Of r := by
  obtain ⟨h1, h2⟩ := h
  unfold utf8Of
  by_cases c1 : r < 0x80
  · rw [if_pos c1, encoderune_1 r (by omega)]
  by_cases c2 : r < 0x800
  · rw [if_neg c1, if_pos c2, encoderune_2 r (by omega) (by omega)]
  by_cases c3 : r < 0x10000
  · rw [if_neg c1, if_neg c2, if_pos c3, encoderune_3 r (by omega) (by omega) h2]
  · rw [if_neg c1, if_neg c2, if_neg c3, encoderune_4 r (by omega) h1]

theorem stringOfRunes_eq_utf8Of (rs : List Nat) (h : ∀ r ∈ rs, ScalarValue r) :
    stringOfRunes rs = (rs.map utf8Of).flatten := by
  induction rs with
  | nil => rfl
  | cons r rs ih =>
    have ih1 : (rs.map encoderune).flatten = (rs.map utf8Of).flatten :=
      ih (fun x hx => h x (List.mem_cons_of_mem _ hx))
    simp only [stringOfRunes, List.map_cons, List.flatten_cons,
      encoderune_eq_utf8Of r (h r (List.mem_cons_self _ _)), ih1]

theorem utf16Decode_cons_single (r : Nat) (t : List Nat) (h : r < 0xd800 ∨ 0xe000 ≤ r) :
    utf16Decode (r :: t) = r :: utf16Decode t := by
  cases t with
  | nil => simp [utf16Decode, h]
  | cons r2 rest => rw [utf16Decode, if_pos h]

theorem utf16Decode_cons_pair (a b : Nat) (t : List Nat) (ha : a < 0x400) (hb : b < 0x400) :
    utf16Decode ((0xD800 + a) :: (0xDC00 + b) :: t)
      = (0x10000 + a * 0x400 + b) :: utf16Decode t := by
  have e : (((0xD800 + a - 0xd800) <<< 10) ||| (0xDC00 + b - 0xdc00)) + 0x10000
      = 0x10000 + a * 0x400 + b := by
    rw [Nat.add_sub_cancel_left, Nat.add_sub_cancel_left, Nat.shiftLeft_eq,
      lor_eq_add (a * 2 ^ 10) b 10 (by simp) (by simpa using hb)]
    simp only [Nat.reducePow]
    omega
  rw [utf16Decode, if_neg (by omega), if_pos (by omega), e]

theorem utf16Decode_utf16Of (rs : List Nat) (h : ∀ r ∈ rs, ScalarValue r) :
    utf16Decode ((rs.map utf16Of).flatten) = rs := by
  induction rs with
  | nil => rfl
  | cons r rs ih =>
    obtain ⟨h1, h2⟩ := h r (List.mem_cons_self _ _)
    have ih1 := ih (fun x hx => h x (List.mem_cons_of_mem _ hx))
    rw [List.map_cons, List.flatten_cons]
    by_cases c : r < 0x10000
    · have e : utf16Of r = [r] := by rw [utf16Of, if_pos c]
      rw [e, List.singleton_append, utf16Decode_cons_single r _ (by omega), ih1]
    · have e : utf16Of r
          = [0xD800 + (r - 0x10000) / 0x400, 0xDC00 + (r - 0x10000) % 0x400] := by
        rw [utf16Of, if_neg c]
      rw [e]
      simp only [List.cons_append, List.nil_append]
      have e2 : 0x10000 + (r - 0x10000) / 0x400 * 0x400 + (r - 0x10000) % 0x400 = r := by
        omega
      rw [utf16Decode_cons_pair _ _ _ (by omega) (Nat.mod_lt _ (by norm_num)), ih1, e2]

theorem utf16Of_units (rs : List Nat) (h : ∀ r ∈ rs, r ≠ 0 ∧ ScalarValue r) :
    ∀ u ∈ (rs.map utf16Of).flatten, u ≠ 0 ∧ u < 2 ^ 16 := by
  intro u hu
  obtain ⟨l, hl, hul⟩ := List.mem_flatten.mp hu
  obtain ⟨r, hr, rfl⟩ := List.mem_map.mp hl
  obtain ⟨h0, h1, h2⟩ := h r hr
  by_cases c : r < 0x10000
  · have e : utf16Of r = [r] := by rw [utf16Of, if_pos c]
    rw [e, List.mem_singleton] at hul
    subst hul
    exact ⟨h0, by omega⟩
  · have e : utf16Of r
        = [0xD800 + (r - 0x10000) / 0x400, 0xDC00 + (r - 0x10000) % 0x400] := by
      rw [utf16Of, if_neg c]
    rw [e] at hul
    have hlo : (r - 0x10000) % 0x400 < 0x400 := Nat.mod_lt _ (by norm_num)
    rcases List.mem_cons.mp hul with hul | hul
    · rw [hul]
      exact ⟨by omega, by omega⟩
    · rw [List.mem_singleton] at hul
      rw [hul]
      exact ⟨by omega, by omega⟩

theorem mustReadString_name (name : List Nat) (h : ∀ r ∈ name, r ≠ 0 ∧ ScalarValue r)
    (rest : List Nat) :
    mustReadString ((((name.map utf16Of).flatten).map u16le).flatten ++ (u16le 0 ++ rest))
      = .ok ((name.map utf8Of).flatten, rest) := by
  have hs : ∀ r ∈ name, ScalarValue r := fun r hr => (h r hr).2
  rw [mustReadString_units _ (utf16Of_units name h), utf16Decode_utf16Of name hs,
    stringOfRunes_eq_utf8Of name hs]

theorem WireCell.bytes_append (c : WireCell) (rest : List Nat) :
    c.bytes ++ rest = u32le c.id ++ (i16le c.x ++ (i16le c.y ++ (i16le c.size ++
      (c.r :: c.g :: c.b :: c.f ::
        (c.ext ++ ((c.units.map u16le).flatten ++ (u16le 0 ++ rest))))))) := by
  simp [WireCell.bytes, List.append_assoc]

theorem readCellUpdate_bytes (c : WireCell) (hc : c.valid) (rest : List Nat) :
    readCellUpdate c.id (i16le c.x ++ (i16le c.y ++ (i16le c.size ++
      (c.r :: c.g :: c.b :: c.f ::
        (c.ext ++ ((c.units.map u16le).flatten ++ (u16le 0 ++ rest)))))))
      = .ok (c.update, rest) := by
  obtain ⟨_, _, hx, hy, hs, hext, hname⟩ := hc
  have ht : (c.units.map u16le).flatten ++ (u16le 0 ++ rest) ≠ [] := by
    simp [u16le]
  obtain ⟨e1, e2, h1, h2, h3⟩ := skip_extension c.f c.ext _ hext ht
  have hstr : mustReadString ((c.units.map u16le).flatten ++ (u16le 0 ++ rest))
      = .ok ((c.name.map utf8Of).flatten, rest) := mustReadString_name c.name hname rest
  simp only [readCellUpdate, bind, Except.bind, pure, Except.pure,
    mustReadInt16_i16le c.x hx.1 hx.2, mustReadInt16_i16le c.y hy.1 hy.2,
    mustReadInt16_i16le c.size hs.1 hs.2, mustReadByte, h1, h2, h3,
    hstr, flag_test_1, flag_test_16, WireCell.update]

theorem readDestroyed_bytes (destroyed : List CellDestroyed)
    (h : ∀ d ∈ destroyed, d.Attacker < 2 ^ 32 ∧ d.Victim < 2 ^ 32) (rest : List Nat) :
    readDestroyed destroyed.length ((destroyed.map CellDestroyed.bytes).flatten ++ rest)
      = .ok (destroyed, rest) := by
  induction destroyed with
  | nil => simp [readDestroyed]
  | cons d ds ih =>
    have hd := h d (List.mem_cons_self _ _)
    have ih1 := ih (fun e he => h e (List.mem_cons_of_mem _ he))
    simp only [List.length_cons, List.map_cons, List.flatten_cons, CellDestroyed.bytes,
      List.append_assoc, readDestroyed, bind, Except.bind, pure, Except.pure,
      mustReadUint32_u32le d.Attacker hd.1, mustReadUint32_u32le d.Victim hd.2, ih1]

theorem readClean_bytes (clean : List Nat) (h : ∀ i ∈ clean, i < 2 ^ 32) (rest : List Nat) :
    readClean clean.length ((clean.map u32le).flatten ++ rest) = .ok (clean, rest) := by
  induction clean with
  | nil => simp [readClean]
  | cons i is ih =>
    have hi := h i (List.mem_cons_self _ _)
    have ih1 := ih (fun e he => h e (List.mem_cons_of_mem _ he))
    simp only [List.length_cons, List.map_cons, List.flatten_cons,
      List.append_assoc, readClean, bind, Except.bind, pure, Except.pure,
      mustReadUint32_u32le i hi, ih1]

theorem readUpdated_bytes (cells : List WireCell) (h : ∀ c ∈ cells, c.valid) :
    ∀ (fuel : Nat) (rest : List Nat), cells.length < fuel →
      readUpdated fuel ((cells.map WireCell.bytes).flatten ++ (u32le 0 ++ rest))
        = .ok (cells.map WireCell.update, rest) := by
  induction cells with
  | nil =>
    intro fuel rest hf
    obtain ⟨k, rfl⟩ : ∃ k, fuel = k + 1 := ⟨fuel - 1, by simp at hf; omega⟩
    simp only [List.map_nil, List.flatten_nil, List.nil_append, readUpdated, bind,
      Except.bind, pure, Except.pure, mustReadUint32_u32le 0 (by norm_num), if_true]
  | cons c cs ih =>
    intro fuel rest hf
    obtain ⟨k, rfl⟩ : ∃ k, fuel = k + 1 := ⟨fuel - 1, by simp at hf; omega⟩
    have hc := h c (List.mem_cons_self _ _)
    have ih1 := ih (fun e he => h e (List.mem_cons_of_mem _ he)) k rest
      (by simp at hf; omega)
    rw [List.map_cons, List.flatten_cons, List.append_assoc, WireCell.bytes_append]
    simp only [readUpdated, bind, Except.bind, pure, Except.pure,
      mustReadUint32_u32le c.id hc.2.1, if_neg hc.1, readCellUpdate_bytes c hc, ih1,
      List.map_cons]

theorem WireCell.bytes_length_pos (c : WireCell) : 0 < c.bytes.length := by
  simp [WireCell.bytes, u32le]

theorem flatten_bytes_length (cells : List WireCell) :
    cells.length ≤ ((cells.map WireCell.bytes).flatten).length := by
  induction cells with
  | nil => simp
  | cons c cs ih =>
    have := WireCell.bytes_length_pos c
    simp only [List.map_cons, List.flatten_cons, List.length_append, List.length_cons]
    omega

theorem readFrom_updateMessage (destroyed : List CellDestroyed) (cells : List WireCell)
    (clean : List Nat)
    (hD : destroyed.length < 2 ^ 16)
    (hDid : ∀ d ∈ destroyed, d.Attacker < 2 ^ 32 ∧ d.Victim < 2 ^ 32)
    (hU : ∀ c ∈ cells, c.valid)
    (hC : clean.length < 2 ^ 32) (hCid : ∀ i ∈ clean, i < 2 ^ 32) :
    readFrom (updateMessage destroyed cells clean)
      = .ok ((Message.MessageUpdate destroyed (cells.map WireCell.update) clean, none), []) := by
  have hfuel : cells.length <
      ((cells.map WireCell.bytes).flatten ++ (u32le 0 ++ (u32le clean.length ++
        (clean.map u32le).flatten))).length + 1 := by
    have := flatten_bytes_length cells
    simp only [List.length_append]
    omega
  have hclean := readClean_bytes clean hCid []
  rw [List.append_nil] at hclean
  simp only [updateMessage, readFrom, readSwitch, mustReadByte, bind, Except.bind, pure,
    Except.pure, mustReadUint16_u16le destroyed.length hD,
    readDestroyed_bytes destroyed hDid, readUpdated_bytes cells hU _ _ hfuel,
    mustReadUint32_u32le clean.length hC, hclean]
  simp

/-- C1: `Read` on the update message built from a list of fewer than 2^16
destroyed pairs of u32 ids, a list of valid cell records (non-zero u32 id, i16
x, y and size, any colour and flag bytes, an extension block of
4*[bit 1] + 8*[bit 2] + 16*[bit 3] bytes, a name given on the wire as the
well-formed UTF-16 code units of scalar values other than U+0000) and a list
of fewer than 2^32 u32 clean ids returns, with a nil error, the
`MessageUpdate` holding the destroyed pairs, the cell updates (virus = bit 0 of
the flag byte, agitated = bit 4, name = the string of the scalar values that
the code units encode) and the clean ids in wire order, and no byte of the
message is left unread. -/
theorem C1_read_update_message (destroyed : List CellDestroyed) (cells : List WireCell)
    (clean : List Nat)
    (hD : destroyed.length < 2 ^ 16)
    (hDid : ∀ d ∈ destroyed, d.Attacker < 2 ^ 32 ∧ d.Victim < 2 ^ 32)
    (hU : ∀ c ∈ cells, c.valid)
    (hC : clean.length < 2 ^ 32) (hCid : ∀ i ∈ clean, i < 2 ^ 32) :
    Read (updateMessage destroyed cells clean)
        = (Message.MessageUpdate destroyed (cells.map WireCell.update) clean, none)
      ∧ unreadLen (updateMessage destroyed cells clean) = some 0 := by
  have h := readFrom_updateMessage destroyed cells clean hD hDid hU hC hCid
  simp [Read, unreadLen, h]

/-- C1 at a concrete message: one destroyed pair (1, 2), one record (id 1,
x 10, y -10, size 50, colour 1 2 3, flag byte 0x13: virus, a 4-byte extension
block, agitated) whose name "A€😀" is on the wire as the code units 0041 20AC
D83D DE00, and the clean id 7.  The decoded name is the UTF-8 string
41 E2 82 AC F0 9F 98 80: the surrogate pair is one code point. -/
theorem C1_read_update_message_witness :
    Read [0x10, 1, 0, 1, 0, 0, 0, 2, 0, 0, 0,
          1, 0, 0, 0, 10, 0, 0xF6, 0xFF, 50, 0, 1, 2, 3, 0x13, 9, 9, 9, 9,
          0x41, 0x00, 0xAC, 0x20, 0x3D, 0xD8, 0x00, 0xDE, 0, 0,
          0, 0, 0, 0, 1, 0, 0, 0, 7, 0, 0, 0]
      = (Message.MessageUpdate [{ Attacker := 1, Victim := 2 }]
          [{ ID := 1, Point := { X := 10, Y := -10 }, Size := 50, R := 1, G := 2, B := 3,
             Virus := true, Agitated := true,
             Name := [0x41, 0xE2, 0x82, 0xAC, 0xF0, 0x9F, 0x98, 0x80] }] [7], none)
    ∧ unreadLen [0x10, 1, 0, 1, 0, 0, 0, 2, 0, 0, 0,
          1, 0, 0, 0, 10, 0, 0xF6, 0xFF, 50, 0, 1, 2, 3, 0x13, 9, 9, 9, 9,
          0x41, 0x00, 0xAC, 0x20, 0x3D, 0xD8, 0x00, 0xDE, 0, 0,
          0, 0, 0, 0, 1, 0, 0, 0, 7, 0, 0, 0] = some 0 := by
  have h := C1_read_update_message [{ Attacker := 1, Victim := 2 }]
    [{ id := 1, x := 10, y := -10, size := 50, r := 1, g := 2, b := 3, f := 0x13,
       ext := [9, 9, 9, 9], name := [0x41, 0x20ac, 0x1F600] }] [7]
    (by decide) (by decide)
    (by
      intro c hc
      rw [List.mem_singleton] at hc
      subst hc
      simp [WireCell.valid, extLen, Nat.testBit, ScalarValue])
    (by decide) (by decide)
  exact h

end Agario
